import Mathlib

/-!
Verification of the computational core of the bondCalculator repository
(`bond_calc.py`) against its natural-language specification.

The file is a shallow embedding: Python floats become real numbers,
`datetime.date` becomes a year/month/day record with the proleptic
Gregorian calendar, and the `while` loops of the source become
well-founded recursions.  Definitions mirror the source line by line;
spec-level reference formulas are given separate `...Spec` definitions
and compared with the embedded code in the theorems.
-/

noncomputable section

/-! ## Date model (Python `datetime.date`) -/

/-- A calendar date, as Python's `datetime.date` triple.  Python dates are
always valid (month 1..12, day within the month); the embedding keeps the
fields unconstrained and states validity where an argument needs it. -/
structure Date where
  year : ℤ
  month : ℤ
  day : ℤ
deriving DecidableEq, Repr

/-- Python compares dates by their (year, month, day) tuple. -/
def Date.lt (a b : Date) : Prop :=
  a.year < b.year ∨ (a.year = b.year ∧
    (a.month < b.month ∨ (a.month = b.month ∧ a.day < b.day)))

instance (a b : Date) : Decidable (a.lt b) := by
  unfold Date.lt; infer_instance

def Date.le (a b : Date) : Prop := a.lt b ∨ a = b

instance (a b : Date) : Decidable (a.le b) := by
  unfold Date.le; infer_instance

/-- Python's leap-year rule (`calendar.isleap`). -/
def isLeap (y : ℤ) : Prop := y % 4 = 0 ∧ (y % 100 ≠ 0 ∨ y % 400 = 0)

instance (y : ℤ) : Decidable (isLeap y) := by
  unfold isLeap; infer_instance

/-- Number of days in a month of the proleptic Gregorian calendar
(0 for an out-of-range month, whose construction always fails). -/
def daysInMonth (y m : ℤ) : ℤ :=
  if m = 2 then (if isLeap y then 29 else 28)
  else if m = 4 ∨ m = 6 ∨ m = 9 ∨ m = 11 then 30
  else if 1 ≤ m ∧ m ≤ 12 then 31
  else 0

/-- Days in the months strictly before month `m` of year `y`. -/
def daysBeforeMonth (y m : ℤ) : ℤ :=
  (if 2 ≤ m then 31 else 0) + (if 3 ≤ m then (if isLeap y then 29 else 28) else 0) +
  (if 4 ≤ m then 31 else 0) + (if 5 ≤ m then 30 else 0) +
  (if 6 ≤ m then 31 else 0) + (if 7 ≤ m then 30 else 0) +
  (if 8 ≤ m then 31 else 0) + (if 9 ≤ m then 31 else 0) +
  (if 10 ≤ m then 30 else 0) + (if 11 ≤ m then 31 else 0) +
  (if 12 ≤ m then 30 else 0)

/-- Python's `date.toordinal`: day number in the proleptic Gregorian
calendar, with day 1 = 0001-01-01. -/
def Date.toOrdinal (d : Date) : ℤ :=
  365 * (d.year - 1) + (d.year - 1).fdiv 4 - (d.year - 1).fdiv 100 +
    (d.year - 1).fdiv 400 + daysBeforeMonth d.year d.month + d.day

/-- Python's `(d2 - d1).days`. -/
def dateSub (d2 d1 : Date) : ℤ := d2.toOrdinal - d1.toOrdinal

/-- A date as Python can produce it, with a day the month stepping never
clamps (day ≤ 28). -/
def NiceDate (d : Date) : Prop :=
  1 ≤ d.month ∧ d.month ≤ 12 ∧ 1 ≤ d.day ∧ d.day ≤ 28

instance (d : Date) : Decidable (NiceDate d) := by
  unfold NiceDate; infer_instance

/-- The source's `date(year, month, day)` guarded by `try/except` with the
day-28 fallback: an invalid day is replaced by 28.  (A day `≤ 28` with a
month in 1..12 is always constructible, so the fallback only ever fires
for days 29–31.) -/
def mkDateOr28 (y m d : ℤ) : Date :=
  if 1 ≤ d ∧ d ≤ daysInMonth y m then ⟨y, m, d⟩ else ⟨y, m, 28⟩

/-- The source's month-underflow normalization
`while month <= 0: month += 12; year -= 1`. -/
def normMonthNeg (y m : ℤ) : ℤ × ℤ :=
  if m ≤ 0 then normMonthNeg (y - 1) (m + 12) else (y, m)
termination_by (1 - m).toNat
decreasing_by omega

/-- The source's month-overflow normalization
`while month > 12: month -= 12; year += 1`. -/
def normMonthPos (y m : ℤ) : ℤ × ℤ :=
  if 12 < m then normMonthPos (y + 1) (m - 12) else (y, m)
termination_by m.toNat
decreasing_by omega

/-- Linear month index used to measure the while loops of the source. -/
def monthIdx (d : Date) : ℤ := 12 * d.year + d.month

/-- One backward month step of the source (source lines 81-95): subtract
`months_step` months, normalize the month, rebuild the date with the
day-28 fallback. -/
def stepBackDate (months_step : ℤ) (d : Date) : Date :=
  mkDateOr28 (normMonthNeg d.year (d.month - months_step)).1
    (normMonthNeg d.year (d.month - months_step)).2 d.day

/-- One forward month step of the source (source lines 153-162 and
173-182). -/
def stepFwdDate (months_step : ℤ) (d : Date) : Date :=
  mkDateOr28 (normMonthPos d.year (d.month + months_step)).1
    (normMonthPos d.year (d.month + months_step)).2 d.day

/-- A month field as Python guarantees it. -/
def monthOk (d : Date) : Prop := 1 ≤ d.month ∧ d.month ≤ 12

instance (d : Date) : Decidable (monthOk d) := by
  unfold monthOk; infer_instance

/-! ## The Bond record and its methods (`bond_calc.py`) -/

/-- The `Bond` dataclass.  `frequency` and `convention` are strings in the
source (string-literal types), so they are strings here as well: the
source's fallback branches for unrecognized strings are part of the code. -/
structure Bond where
  face_value : ℝ
  yield_rate : ℝ
  coupon_rate : ℝ
  frequency : String
  maturity_date : Date
  settlement_date : Date
  convention : String

/-- `Bond._get_frequency_int` (source lines 19-24), including the final
fallback `return 1`. -/
def Bond.get_frequency_int (b : Bond) : ℕ :=
  if b.frequency = "annually" then 1
  else if b.frequency = "semi-annually" then 2
  else if b.frequency = "quarterly" then 4
  else if b.frequency = "monthly" then 12
  else 1

/-- `Bond._calculate_days_30360` (source lines 26-39).  The second cap
tests the already-mutated first day, exactly as the source does. -/
def calculate_days_30360 (d1 d2 : Date) : ℤ :=
  let d1_day := if d1.day = 31 then 30 else d1.day
  let d2_day := if d2.day = 31 ∧ d1_day = 30 then 30 else d2.day
  360 * (d2.year - d1.year) + 30 * (d2.month - d1.month) + (d2_day - d1_day)

/-- `Bond._calculate_year_fraction` (source lines 41-66), including the
final `return 0.0` fallback for an unrecognized convention string. -/
def Bond.calculate_year_fraction (b : Bond) (d1 d2 : Date) : ℝ :=
  if b.convention = "30/360" then
    (calculate_days_30360 d1 d2 : ℝ) / 360
  else if b.convention = "Actual/360" then
    (dateSub d2 d1 : ℝ) / 360
  else if b.convention = "Actual/365" then
    (dateSub d2 d1 : ℝ) / 365
  else if b.convention = "Actual/Actual" then
    if d1.year = d2.year then
      (dateSub d2 d1 : ℝ) /
        (if d1.year % 4 = 0 ∧ (d1.year % 100 ≠ 0 ∨ d1.year % 400 = 0) then 366 else 365)
    else (dateSub d2 d1 : ℝ) / (365.25 : ℝ)
  else 0

/-- The backward `while` loop of `Bond.get_last_coupon_date` (source lines
79-96).  The guard carries, besides the loop condition of the source, the
facts `1 ≤ months_step` and the month-range bounds that hold for every
Python date and every frequency the source can produce; without them the
source loop would not terminate, and with them the recursion is measured
by the month index.  (The source's `except` branch is guarded by
`day >= 29`; a day below 29 never fails to construct, so `mkDateOr28`
has identical behaviour.) -/
def lastCouponLoop (settlement : Date) (months_step : ℤ) (c : Date) : Date :=
  if h : 1 ≤ months_step ∧ monthOk c ∧ monthOk settlement ∧ settlement.lt c then
    lastCouponLoop settlement months_step (stepBackDate months_step c)
  else c
termination_by (monthIdx c - monthIdx settlement + months_step).toNat
decreasing_by
  have h1 : ∀ y m : ℤ, 12 * (normMonthNeg y m).1 + (normMonthNeg y m).2 = 12 * y + m := by
    intro y m
    induction y, m using normMonthNeg.induct with
    | case1 y m h0 ih => rw [normMonthNeg, if_pos h0]; omega
    | case2 y m h0 => rw [normMonthNeg, if_neg h0]
  have h2 : monthIdx settlement ≤ monthIdx c := by
    obtain ⟨hs, ⟨c1, c2⟩, ⟨s1, s2⟩, hlt⟩ := h
    rcases hlt with hy | ⟨hy, hm2 | ⟨hm2, _⟩⟩ <;> simp only [monthIdx] <;> omega
  have h3 := h1 c.year (c.month - months_step)
  have h4 : ∀ y m d : ℤ, (mkDateOr28 y m d).year = y ∧ (mkDateOr28 y m d).month = m := by
    intro y m d; unfold mkDateOr28; split <;> exact ⟨rfl, rfl⟩
  obtain ⟨h5, h6⟩ := h4 (normMonthNeg c.year (c.month - months_step)).1
    (normMonthNeg c.year (c.month - months_step)).2 c.day
  simp only [stepBackDate, monthIdx] at *
  omega

/-- `Bond.get_last_coupon_date` (source lines 73-97): traverse backwards
from maturity in steps of `12 // frequency` months. -/
def Bond.get_last_coupon_date (b : Bond) : Date :=
  lastCouponLoop b.settlement_date (12 / (b.get_frequency_int : ℤ)) b.maturity_date

/-- The forward cash-flow `while` loop of `Bond.calculate` (source lines
166-182): emit `(date, coupon)` while the date does not exceed maturity,
adding the face value on the entry equal to maturity, and step forward by
`months_step` months with the day-28 fallback.  Guard as in
`lastCouponLoop`. -/
def cashFlowsLoop (maturity : Date) (months_step : ℤ) (coupon_val face_value : ℝ)
    (c : Date) : List (Date × ℝ) :=
  if h : 1 ≤ months_step ∧ monthOk c ∧ monthOk maturity ∧ c.le maturity then
    (c, if c = maturity then coupon_val + face_value else coupon_val) ::
      cashFlowsLoop maturity months_step coupon_val face_value
        (stepFwdDate months_step c)
  else []
termination_by (monthIdx maturity + months_step - monthIdx c).toNat
decreasing_by
  have h1 : ∀ y m : ℤ, 12 * (normMonthPos y m).1 + (normMonthPos y m).2 = 12 * y + m := by
    intro y m
    induction y, m using normMonthPos.induct with
    | case1 y m h0 ih => rw [normMonthPos, if_pos h0]; omega
    | case2 y m h0 => rw [normMonthPos, if_neg h0]
  have h2 : monthIdx c ≤ monthIdx maturity := by
    obtain ⟨hs, ⟨c1, c2⟩, ⟨m1, m2⟩, hle⟩ := h
    rcases hle with hlt | rfl
    · rcases hlt with hy | ⟨hy, hm2 | ⟨hm2, _⟩⟩ <;> simp only [monthIdx] <;> omega
    · exact le_refl _
  have h3 := h1 c.year (c.month + months_step)
  have h4 : ∀ y m d : ℤ, (mkDateOr28 y m d).year = y ∧ (mkDateOr28 y m d).month = m := by
    intro y m d; unfold mkDateOr28; split <;> exact ⟨rfl, rfl⟩
  obtain ⟨h5, h6⟩ := h4 (normMonthPos c.year (c.month + months_step)).1
    (normMonthPos c.year (c.month + months_step)).2 c.day
  simp only [stepFwdDate, monthIdx] at *
  omega

/-- Per-period coupon `coupon_val = face_value * (coupon_rate/100) / freq`
(source line 101). -/
def Bond.coupon_val (b : Bond) : ℝ :=
  b.face_value * (b.coupon_rate / 100) / (b.get_frequency_int : ℝ)

/-- The cash-flow schedule built inline in `Bond.calculate` (source lines
143-182): advance one period past the last coupon date (the
`while m_next > 12` normalization of line 156), then run the emission
loop. -/
def Bond.cash_flows (b : Bond) : List (Date × ℝ) :=
  let last_coupon := b.get_last_coupon_date
  let months_step : ℤ := 12 / (b.get_frequency_int : ℤ)
  cashFlowsLoop b.maturity_date months_step b.coupon_val b.face_value
    (stepFwdDate months_step last_coupon)

/-- The result record returned by `Bond.calculate` (source lines 217-225). -/
structure CalcResult where
  dirty_price : ℝ
  clean_price : ℝ
  accrued_interest : ℝ
  days_accrued : ℤ
  macaulay_duration : ℝ
  modified_duration : ℝ
  convexity : ℝ

/-- `Bond.calculate` (source lines 99-225).  The accrued-interest branch
on the convention string, the discounting fold and the derived outputs
follow the source statement by statement; real powers with real exponents
are `Real.rpow`, matching Python's float `pow`. -/
def Bond.calculate (b : Bond) : CalcResult :=
  let freq := b.get_frequency_int
  let coupon_val := b.coupon_val
  let yield_dec := b.yield_rate / 100
  let last_coupon := b.get_last_coupon_date
  let da : ℤ × ℝ :=
    if b.convention = "30/360" then
      let d := calculate_days_30360 last_coupon b.settlement_date
      (d, coupon_val * ((d : ℝ) / ((360 : ℝ) / (freq : ℝ))))
    else if b.convention = "Actual/360" then
      let d := dateSub b.settlement_date last_coupon
      (d, coupon_val * ((d : ℝ) / ((360 : ℝ) / (freq : ℝ))))
    else if b.convention = "Actual/365" then
      let d := dateSub b.settlement_date last_coupon
      (d, coupon_val * ((d : ℝ) / ((365 : ℝ) / (freq : ℝ))))
    else
      let d := dateSub b.settlement_date last_coupon
      let months_step : ℤ := 12 / (freq : ℤ)
      let m0 := last_coupon.month + months_step
      let ym : ℤ × ℤ :=
        if 12 < m0 then (last_coupon.year + 1, m0 - 12) else (last_coupon.year, m0)
      let next_coupon := mkDateOr28 ym.1 ym.2 last_coupon.day
      let days_in_period := dateSub next_coupon last_coupon
      (d, coupon_val * ((d : ℝ) / (days_in_period : ℝ)))
  let days_accrued := da.1
  let accrued_interest := da.2
  let cash_flows := b.cash_flows
  let acc := cash_flows.foldl (fun (acc : ℝ × ℝ × ℝ) cf =>
    let t := b.calculate_year_fraction b.settlement_date cf.1
    let n := (freq : ℝ) * t
    let discount_factor := 1 / (1 + yield_dec / (freq : ℝ)) ^ n
    let pv := cf.2 * discount_factor
    (acc.1 + pv, acc.2.1 + t * pv,
      acc.2.2 + cf.2 * n * (n + 1) / (1 + yield_dec / (freq : ℝ)) ^ (n + 2)))
    (0, 0, 0)
  let dirty_price := acc.1
  let duration_sum := acc.2.1
  let convexity_sum := acc.2.2
  let clean_price := dirty_price - accrued_interest
  let macaulay_duration := if dirty_price ≠ 0 then duration_sum / dirty_price else 0
  let modified_duration := macaulay_duration / (1 + yield_dec / (freq : ℝ))
  let convexity :=
    if dirty_price ≠ 0 then convexity_sum / (dirty_price * (freq : ℝ) * (freq : ℝ)) else 0
  ⟨dirty_price, clean_price, accrued_interest, days_accrued, macaulay_duration,
    modified_duration, convexity⟩

/-! ## Curve functions (`calculate_forward_rate`, `bootstrap_spot_curve`) -/

/-- `calculate_forward_rate` (source lines 227-248). -/
def calculate_forward_rate (rate_t1 t1 rate_t2 t2 : ℝ) : ℝ :=
  if t2 ≤ t1 then 0
  else
    let r1 := rate_t1 / 100
    let r2 := rate_t2 / 100
    let df1 := (1 + r1) ^ t1
    let df2 := (1 + r2) ^ t2
    let forward_factor := df2 / df1
    let time_diff := t2 - t1
    ((forward_factor ^ (1 / time_diff)) - 1) * 100

/-- The inner accumulation loop of `bootstrap_spot_curve` (source lines
266-278): for integer `t` in `range(1, year)`, add the discounted coupon
when `t` is a key of the spot curve, and skip it otherwise.  The exponent
is a Python `int`, hence a monoid power. -/
def pv_prior_coupons (spot_curve : List (ℕ × ℝ)) (coupon : ℝ) (year : ℕ) : ℝ :=
  (List.range' 1 (year - 1)).foldl (fun acc t =>
    match spot_curve.lookup t with
    | some z => acc + coupon / (1 + z / 100) ^ t
    | none => acc) 0

/-- One iteration of the `for year in sorted_years` loop of
`bootstrap_spot_curve` (source lines 259-298).  A Python dict keyed by
ascending insertion order is an association list here, so the assignment
`spot_curve[year] = v` is an append.  The `getD 0` models the lookup of a
key that is always present. -/
def bootstrap_step (par_yields spot_curve : List (ℕ × ℝ)) (year : ℕ) : List (ℕ × ℝ) :=
  let par_yield := ((par_yields.lookup year).getD 0) / 100
  let coupon := 100 * par_yield
  let pv := pv_prior_coupons spot_curve coupon year
  let remaining_val := 100 - pv
  if remaining_val ≤ 0 then spot_curve ++ [(year, 0)]
  else
    let final_payment := 100 + coupon
    let discount_factor_n := remaining_val / final_payment
    let z_n := (1 / discount_factor_n) ^ ((1 : ℝ) / (year : ℝ)) - 1
    spot_curve ++ [(year, z_n * 100)]

/-- `bootstrap_spot_curve` (source lines 250-300): process the years of
the par-yield table in ascending order. -/
def bootstrap_spot_curve (par_yields : List (ℕ × ℝ)) : List (ℕ × ℝ) :=
  let sorted_years := List.insertionSort (· ≤ ·) (par_yields.map Prod.fst)
  sorted_years.foldl (bootstrap_step par_yields) []

/-! ## Fuel-indexed evaluators for the loops

The four recursions above are the model; the following structurally
recursive evaluators compute the same values once the fuel dominates the
loop measure (proved below), which lets concrete runs be checked by
kernel reduction. -/

def normMonthNegAux : ℕ → ℤ → ℤ → ℤ × ℤ
  | 0, y, m => (y, m)
  | fuel + 1, y, m => if m ≤ 0 then normMonthNegAux fuel (y - 1) (m + 12) else (y, m)

def normMonthPosAux : ℕ → ℤ → ℤ → ℤ × ℤ
  | 0, y, m => (y, m)
  | fuel + 1, y, m => if 12 < m then normMonthPosAux fuel (y + 1) (m - 12) else (y, m)

/-- `stepBackDate` with the month normalization evaluated by fuel. -/
def stepBackAux (months_step : ℤ) (d : Date) : Date :=
  mkDateOr28 (normMonthNegAux (1 - (d.month - months_step)).toNat d.year
      (d.month - months_step)).1
    (normMonthNegAux (1 - (d.month - months_step)).toNat d.year
      (d.month - months_step)).2 d.day

/-- `stepFwdDate` with the month normalization evaluated by fuel. -/
def stepFwdAux (months_step : ℤ) (d : Date) : Date :=
  mkDateOr28 (normMonthPosAux (d.month + months_step).toNat d.year
      (d.month + months_step)).1
    (normMonthPosAux (d.month + months_step).toNat d.year
      (d.month + months_step)).2 d.day

def lastCouponAux (settlement : Date) (months_step : ℤ) : ℕ → Date → Date
  | 0, c => c
  | fuel + 1, c =>
    if 1 ≤ months_step ∧ monthOk c ∧ monthOk settlement ∧ settlement.lt c then
      lastCouponAux settlement months_step fuel (stepBackAux months_step c)
    else c

def cashFlowsAux (maturity : Date) (months_step : ℤ) (coupon_val face_value : ℝ) :
    ℕ → Date → List (Date × ℝ)
  | 0, _ => []
  | fuel + 1, c =>
    if 1 ≤ months_step ∧ monthOk c ∧ monthOk maturity ∧ c.le maturity then
      (c, if c = maturity then coupon_val + face_value else coupon_val) ::
        cashFlowsAux maturity months_step coupon_val face_value fuel
          (stepFwdAux months_step c)
    else []

/-- The dates visited by `cashFlowsAux`, kept free of real numbers so a
concrete schedule can be computed by kernel reduction. -/
def cfDatesAux (maturity : Date) (months_step : ℤ) : ℕ → Date → List Date
  | 0, _ => []
  | fuel + 1, c =>
    if 1 ≤ months_step ∧ monthOk c ∧ monthOk maturity ∧ c.le maturity then
      c :: cfDatesAux maturity months_step fuel (stepFwdAux months_step c)
    else []

/-- The first coupon date strictly after the last coupon date, i.e. the
start of the emission loop (source lines 153-162), in evaluator form. -/
def firstCouponDate (last_coupon : Date) (months_step : ℤ) : Date :=
  stepFwdAux months_step last_coupon

/-! ## Reference formulas written from the specification's words -/

/-- The discount base `1 + yieldRate/frequency` of the spec. -/
def Bond.discount_base (b : Bond) : ℝ :=
  1 + (b.yield_rate / 100) / (b.get_frequency_int : ℝ)

/-- Continuous period count `n = frequency · t` of the spec. -/
def Bond.nPeriods (b : Bond) (d : Date) : ℝ :=
  (b.get_frequency_int : ℝ) * b.calculate_year_fraction b.settlement_date d

/-- Spec formula: `dirtyPrice = Σ amount · (1+y/f)^(−n)`. -/
def dirtyPriceSpec (b : Bond) : ℝ :=
  (b.cash_flows.map (fun cf => cf.2 * b.discount_base ^ (-(b.nPeriods cf.1)))).sum

/-- Spec formula: `durationSum = Σ t · presentValue`. -/
def durationSumSpec (b : Bond) : ℝ :=
  (b.cash_flows.map (fun cf =>
    b.calculate_year_fraction b.settlement_date cf.1 *
      (cf.2 * b.discount_base ^ (-(b.nPeriods cf.1))))).sum

/-- Spec formula: `convexitySum = Σ amount · n · (n+1) · (1+y/f)^(−(n+2))`. -/
def convexitySumSpec (b : Bond) : ℝ :=
  (b.cash_flows.map (fun cf =>
    cf.2 * b.nPeriods cf.1 * (b.nPeriods cf.1 + 1) *
      b.discount_base ^ (-(b.nPeriods cf.1 + 2)))).sum

/-- Spec formula for the bootstrapper's prior-coupon present value
(claim C7): a sum over the integer years `1..Y−1` in which an absent year
contributes exactly zero. -/
def pvPriorSpec (spot_curve : List (ℕ × ℝ)) (coupon : ℝ) (year : ℕ) : ℝ :=
  ((List.range' 1 (year - 1)).map (fun t =>
    match spot_curve.lookup t with
    | some z => coupon / (1 + z / 100) ^ t
    | none => 0)).sum

/-- A flat par-yield table on the contiguous maturities `1..N`. -/
def flatParYields (N : ℕ) (p : ℝ) : List (ℕ × ℝ) :=
  (List.range' 1 N).map (fun y => (y, p))

/-! ## Closed forms of the accumulators of `Bond.calculate`

These restate the loop of the source as explicit sums over the cash-flow
list; `calculate_eq` below proves that `Bond.calculate` computes them. -/

/-- The `(days_accrued, accrued_interest)` pair of `Bond.calculate`
(source lines 104-141), by convention branch. -/
def Bond.accrued_pair (b : Bond) : ℤ × ℝ :=
  let freq := b.get_frequency_int
  let coupon_val := b.coupon_val
  let last_coupon := b.get_last_coupon_date
  if b.convention = "30/360" then
    let d := calculate_days_30360 last_coupon b.settlement_date
    (d, coupon_val * ((d : ℝ) / ((360 : ℝ) / (freq : ℝ))))
  else if b.convention = "Actual/360" then
    let d := dateSub b.settlement_date last_coupon
    (d, coupon_val * ((d : ℝ) / ((360 : ℝ) / (freq : ℝ))))
  else if b.convention = "Actual/365" then
    let d := dateSub b.settlement_date last_coupon
    (d, coupon_val * ((d : ℝ) / ((365 : ℝ) / (freq : ℝ))))
  else
    let d := dateSub b.settlement_date last_coupon
    let months_step : ℤ := 12 / (freq : ℤ)
    let m0 := last_coupon.month + months_step
    let ym : ℤ × ℤ :=
      if 12 < m0 then (last_coupon.year + 1, m0 - 12) else (last_coupon.year, m0)
    let next_coupon := mkDateOr28 ym.1 ym.2 last_coupon.day
    let days_in_period := dateSub next_coupon last_coupon
    (d, coupon_val * ((d : ℝ) / (days_in_period : ℝ)))

/-- The dirty-price accumulator as the source computes it (`1 / base^n`). -/
def codeDirtySum (b : Bond) : ℝ :=
  (b.cash_flows.map (fun cf =>
    cf.2 * (1 / b.discount_base ^ (b.nPeriods cf.1)))).sum

/-- The duration accumulator as the source computes it (`t * pv`). -/
def codeDurationSum (b : Bond) : ℝ :=
  (b.cash_flows.map (fun cf =>
    b.calculate_year_fraction b.settlement_date cf.1 *
      (cf.2 * (1 / b.discount_base ^ (b.nPeriods cf.1))))).sum

/-- The convexity accumulator as the source computes it. -/
def codeConvexitySum (b : Bond) : ℝ :=
  (b.cash_flows.map (fun cf =>
    cf.2 * b.nPeriods cf.1 * (b.nPeriods cf.1 + 1) /
      b.discount_base ^ (b.nPeriods cf.1 + 2))).sum

/-! ## Concrete inputs used by witnesses and counterexamples -/

/-- The regression bond of the spec and of `test_bond_initial.py`. -/
def testBond : Bond :=
  ⟨100, 6, 5, "annually", ⟨2029, 1, 23⟩, ⟨2026, 1, 27⟩, "30/360"⟩

/-- A monthly bond whose maturity day 30 is clamped to 28 while stepping
through February, so the forward schedule misses the maturity date. -/
def clampBond : Bond :=
  ⟨100, 6, 12, "monthly", ⟨2026, 5, 30⟩, ⟨2026, 2, 15⟩, "30/360"⟩

/-- A bond whose settlement (2029-07-23) is after maturity (2029-01-23). -/
def pastBond : Bond :=
  ⟨100, 6, 5, "annually", ⟨2029, 1, 23⟩, ⟨2029, 7, 23⟩, "30/360"⟩

/-- A bond with a day-count convention string the source does not know. -/
def unknownConvBond : Bond :=
  ⟨100, 6, 5, "annually", ⟨2029, 1, 23⟩, ⟨2026, 1, 27⟩, "30E/360"⟩

/-- A bond with yield −200%, so `1 + yieldRate/frequency = −1 ≤ 0`. -/
def negYieldBond : Bond :=
  ⟨100, -200, 5, "annually", ⟨2029, 1, 23⟩, ⟨2026, 1, 23⟩, "30/360"⟩

/-- The test bond with settlement 2028-06-01, leaving a single cash flow,
parametrized by the coupon rate. -/
def singleFlowBond (c : ℝ) : Bond :=
  ⟨100, 6, c, "annually", ⟨2029, 1, 23⟩, ⟨2028, 6, 1⟩, "30/360"⟩

/-! ## Supporting lemmas: dates and month stepping -/

theorem normMonthNeg_idx (y m : ℤ) :
    12 * (normMonthNeg y m).1 + (normMonthNeg y m).2 = 12 * y + m := by
  induction y, m using normMonthNeg.induct with
  | case1 y m h ih => rw [normMonthNeg, if_pos h]; omega
  | case2 y m h => rw [normMonthNeg, if_neg h]

theorem normMonthNeg_bounds (y m : ℤ) (h : m ≤ 12) :
    1 ≤ (normMonthNeg y m).2 ∧ (normMonthNeg y m).2 ≤ 12 := by
  induction y, m using normMonthNeg.induct with
  | case1 y m h0 ih => rw [normMonthNeg, if_pos h0]; exact ih (by omega)
  | case2 y m h0 => rw [normMonthNeg, if_neg h0]; omega

theorem normMonthPos_idx (y m : ℤ) :
    12 * (normMonthPos y m).1 + (normMonthPos y m).2 = 12 * y + m := by
  induction y, m using normMonthPos.induct with
  | case1 y m h ih => rw [normMonthPos, if_pos h]; omega
  | case2 y m h => rw [normMonthPos, if_neg h]

theorem normMonthPos_bounds (y m : ℤ) (h : 1 ≤ m) :
    1 ≤ (normMonthPos y m).2 ∧ (normMonthPos y m).2 ≤ 12 := by
  induction y, m using normMonthPos.induct with
  | case1 y m h0 ih => rw [normMonthPos, if_pos h0]; exact ih (by omega)
  | case2 y m h0 => rw [normMonthPos, if_neg h0]; omega

theorem mkDateOr28_year (y m d : ℤ) : (mkDateOr28 y m d).year = y := by
  unfold mkDateOr28; split <;> rfl

theorem mkDateOr28_month (y m d : ℤ) : (mkDateOr28 y m d).month = m := by
  unfold mkDateOr28; split <;> rfl

theorem daysInMonth_ge_28 (y m : ℤ) (h1 : 1 ≤ m) (h2 : m ≤ 12) :
    28 ≤ daysInMonth y m := by
  unfold daysInMonth
  split_ifs <;> omega

theorem mkDateOr28_of_le_28 (y m d : ℤ) (h1 : 1 ≤ m) (h2 : m ≤ 12)
    (hd1 : 1 ≤ d) (hd2 : d ≤ 28) : mkDateOr28 y m d = ⟨y, m, d⟩ := by
  unfold mkDateOr28
  rw [if_pos ⟨hd1, le_trans hd2 (daysInMonth_ge_28 y m h1 h2)⟩]

theorem monthIdx_le_of_lt (a b : Date) (ha : monthOk a) (hb : monthOk b)
    (h : a.lt b) : monthIdx a ≤ monthIdx b := by
  obtain ⟨ha1, ha2⟩ := ha; obtain ⟨hb1, hb2⟩ := hb
  unfold monthIdx
  rcases h with h | ⟨h, h2 | ⟨h2, _⟩⟩ <;> omega

theorem monthIdx_le_of_le (a b : Date) (ha : monthOk a) (hb : monthOk b)
    (h : a.le b) : monthIdx a ≤ monthIdx b := by
  rcases h with h | rfl
  · exact monthIdx_le_of_lt a b ha hb h
  · exact le_refl _

theorem lt_of_monthIdx_lt (a b : Date) (ha : monthOk a) (hb : monthOk b)
    (h : monthIdx a < monthIdx b) : a.lt b := by
  obtain ⟨ha1, ha2⟩ := ha; obtain ⟨hb1, hb2⟩ := hb
  unfold monthIdx at h
  unfold Date.lt
  omega

theorem not_le_of_monthIdx_lt (a b : Date) (ha : monthOk a) (hb : monthOk b)
    (h : monthIdx b < monthIdx a) : ¬ a.le b := by
  intro hle
  have := monthIdx_le_of_le a b ha hb hle
  omega

/-! ## The fuel evaluators compute the loops -/

theorem normMonthNegAux_spec : ∀ (f : ℕ) (y m : ℤ), (1 - m).toNat ≤ f →
    normMonthNegAux f y m = normMonthNeg y m := by
  intro f
  induction f with
  | zero =>
    intro y m h
    show (y, m) = normMonthNeg y m
    rw [normMonthNeg, if_neg (by omega)]
  | succ f ih =>
    intro y m h
    show (if m ≤ 0 then normMonthNegAux f (y - 1) (m + 12) else (y, m)) = normMonthNeg y m
    by_cases hm : m ≤ 0
    · rw [if_pos hm, ih (y - 1) (m + 12) (by omega)]
      conv_rhs => rw [normMonthNeg, if_pos hm]
    · rw [if_neg hm, normMonthNeg, if_neg hm]

theorem normMonthPosAux_spec : ∀ (f : ℕ) (y m : ℤ), m.toNat ≤ f →
    normMonthPosAux f y m = normMonthPos y m := by
  intro f
  induction f with
  | zero =>
    intro y m h
    show (y, m) = normMonthPos y m
    rw [normMonthPos, if_neg (by omega)]
  | succ f ih =>
    intro y m h
    show (if 12 < m then normMonthPosAux f (y + 1) (m - 12) else (y, m)) = normMonthPos y m
    by_cases hm : 12 < m
    · rw [if_pos hm, ih (y + 1) (m - 12) (by omega)]
      conv_rhs => rw [normMonthPos, if_pos hm]
    · rw [if_neg hm, normMonthPos, if_neg hm]

theorem stepBackAux_eq (s : ℤ) (d : Date) : stepBackAux s d = stepBackDate s d := by
  unfold stepBackAux stepBackDate
  rw [normMonthNegAux_spec _ _ _ (le_refl _)]

theorem stepFwdAux_eq (s : ℤ) (d : Date) : stepFwdAux s d = stepFwdDate s d := by
  unfold stepFwdAux stepFwdDate
  rw [normMonthPosAux_spec _ _ _ (le_refl _)]

theorem stepBackDate_idx (s : ℤ) (d : Date) :
    monthIdx (stepBackDate s d) = monthIdx d - s := by
  have := normMonthNeg_idx d.year (d.month - s)
  unfold stepBackDate
  simp only [monthIdx, mkDateOr28_year, mkDateOr28_month]
  omega

theorem stepFwdDate_idx (s : ℤ) (d : Date) :
    monthIdx (stepFwdDate s d) = monthIdx d + s := by
  have := normMonthPos_idx d.year (d.month + s)
  unfold stepFwdDate
  simp only [monthIdx, mkDateOr28_year, mkDateOr28_month]
  omega

theorem lastCouponAux_spec (s : Date) (step : ℤ) : ∀ (f : ℕ) (c : Date),
    (monthIdx c - monthIdx s + step).toNat ≤ f →
    lastCouponAux s step f c = lastCouponLoop s step c := by
  intro f
  induction f with
  | zero =>
    intro c h
    show c = lastCouponLoop s step c
    rw [lastCouponLoop, dif_neg]
    intro hg
    obtain ⟨h1, hc, hs, hlt⟩ := hg
    have := monthIdx_le_of_lt s c hs hc hlt
    omega
  | succ f ih =>
    intro c h
    show (if 1 ≤ step ∧ monthOk c ∧ monthOk s ∧ s.lt c then
        lastCouponAux s step f (stepBackAux step c)
      else c) = lastCouponLoop s step c
    by_cases hg : 1 ≤ step ∧ monthOk c ∧ monthOk s ∧ s.lt c
    · have hle := monthIdx_le_of_lt s c hg.2.2.1 hg.2.1 hg.2.2.2
      have h1 := stepBackDate_idx step c
      have hbound : (monthIdx (stepBackDate step c) - monthIdx s + step).toNat ≤ f := by
        omega
      rw [if_pos hg, stepBackAux_eq, ih _ hbound]
      conv_rhs => rw [lastCouponLoop, dif_pos hg]
    · rw [if_neg hg, lastCouponLoop, dif_neg hg]

theorem cashFlowsAux_spec (mt : Date) (step : ℤ) (cv fv : ℝ) : ∀ (f : ℕ) (c : Date),
    (monthIdx mt + step - monthIdx c).toNat ≤ f →
    cashFlowsAux mt step cv fv f c = cashFlowsLoop mt step cv fv c := by
  intro f
  induction f with
  | zero =>
    intro c h
    show [] = cashFlowsLoop mt step cv fv c
    rw [cashFlowsLoop, dif_neg]
    intro hg
    obtain ⟨h1, hc, hm, hle⟩ := hg
    have := monthIdx_le_of_le c mt hc hm hle
    omega
  | succ f ih =>
    intro c h
    show (if 1 ≤ step ∧ monthOk c ∧ monthOk mt ∧ c.le mt then
        (c, if c = mt then cv + fv else cv) ::
          cashFlowsAux mt step cv fv f (stepFwdAux step c)
      else []) = cashFlowsLoop mt step cv fv c
    by_cases hg : 1 ≤ step ∧ monthOk c ∧ monthOk mt ∧ c.le mt
    · have hle := monthIdx_le_of_le c mt hg.2.1 hg.2.2.1 hg.2.2.2
      have h1 := stepFwdDate_idx step c
      have hbound : (monthIdx mt + step - monthIdx (stepFwdDate step c)).toNat ≤ f := by
        omega
      rw [if_pos hg, stepFwdAux_eq, ih _ hbound]
      conv_rhs => rw [cashFlowsLoop, dif_pos hg]
    · rw [if_neg hg, cashFlowsLoop, dif_neg hg]

/-- Evaluation form of `Bond.get_last_coupon_date`. -/
theorem get_last_coupon_date_eval (b : Bond) (f : ℕ)
    (h : (monthIdx b.maturity_date - monthIdx b.settlement_date +
      12 / (b.get_frequency_int : ℤ)).toNat ≤ f) :
    b.get_last_coupon_date =
      lastCouponAux b.settlement_date (12 / (b.get_frequency_int : ℤ)) f
        b.maturity_date := by
  unfold Bond.get_last_coupon_date
  exact (lastCouponAux_spec _ _ f _ h).symm

theorem cashFlowsAux_eq_map (mt : Date) (step : ℤ) (cv fv : ℝ) : ∀ (f : ℕ) (c : Date),
    cashFlowsAux mt step cv fv f c =
      (cfDatesAux mt step f c).map (fun d => (d, if d = mt then cv + fv else cv)) := by
  intro f
  induction f with
  | zero => intro c; rfl
  | succ f ih =>
    intro c
    simp only [cashFlowsAux, cfDatesAux]
    by_cases hg : 1 ≤ step ∧ monthOk c ∧ monthOk mt ∧ c.le mt
    · rw [if_pos hg, if_pos hg, List.map_cons, ih]
    · rw [if_neg hg, if_neg hg, List.map_nil]

/-- Evaluation form of `Bond.cash_flows`: the schedule is the dates list
paired with the coupon amounts, the face value added on the maturity
entry. -/
theorem cash_flows_eval (b : Bond) (f : ℕ)
    (h : (monthIdx b.maturity_date - monthIdx b.get_last_coupon_date).toNat ≤ f) :
    b.cash_flows =
      (cfDatesAux b.maturity_date (12 / (b.get_frequency_int : ℤ)) f
          (firstCouponDate b.get_last_coupon_date (12 / (b.get_frequency_int : ℤ)))).map
        (fun d => (d, if d = b.maturity_date then b.coupon_val + b.face_value
            else b.coupon_val)) := by
  have hstart : firstCouponDate b.get_last_coupon_date (12 / (b.get_frequency_int : ℤ)) =
      stepFwdDate (12 / (b.get_frequency_int : ℤ)) b.get_last_coupon_date := by
    unfold firstCouponDate
    exact stepFwdAux_eq _ _
  have hidx := stepFwdDate_idx (12 / (b.get_frequency_int : ℤ)) b.get_last_coupon_date
  have hbound : (monthIdx b.maturity_date + 12 / (b.get_frequency_int : ℤ) -
      monthIdx (firstCouponDate b.get_last_coupon_date
        (12 / (b.get_frequency_int : ℤ)))).toNat ≤ f := by
    rw [hstart]
    omega
  rw [← cashFlowsAux_eq_map, cashFlowsAux_spec _ _ _ _ f _ hbound, hstart]
  simp only [Bond.cash_flows]

/-! ## Supporting lemmas: folds as sums -/

theorem foldl_triple_sum {α : Type} (f g k : α → ℝ) (l : List α) :
    ∀ a b c : ℝ,
      l.foldl (fun acc x => (acc.1 + f x, acc.2.1 + g x, acc.2.2 + k x)) (a, b, c) =
        (a + (l.map f).sum, b + (l.map g).sum, c + (l.map k).sum) := by
  induction l with
  | nil => intro a b c; simp
  | cons x xs ih =>
    intro a b c
    rw [List.foldl_cons, ih]
    simp only [List.map_cons, List.sum_cons, Prod.mk.injEq]
    refine ⟨by ring, by ring, by ring⟩

/-- `Bond.calculate` in closed form: the source's fold over the cash flows
is the triple of sums, and the derived outputs are as in the source. -/
theorem calculate_eq (b : Bond) :
    b.calculate = ⟨codeDirtySum b, codeDirtySum b - b.accrued_pair.2, b.accrued_pair.2,
      b.accrued_pair.1,
      if codeDirtySum b ≠ 0 then codeDurationSum b / codeDirtySum b else 0,
      (if codeDirtySum b ≠ 0 then codeDurationSum b / codeDirtySum b else 0) /
        b.discount_base,
      if codeDirtySum b ≠ 0 then
        codeConvexitySum b /
          (codeDirtySum b * (b.get_frequency_int : ℝ) * (b.get_frequency_int : ℝ))
      else 0⟩ := by
  simp only [Bond.calculate, foldl_triple_sum, zero_add]
  rfl

/-! ## Claim C1: the pricing result satisfies the reference formulas -/

/-- Claim C1: for every bond with settlement < maturity and a positive
discount base `1 + yieldRate/frequency`, the result record of `calculate`
satisfies the reference formulas: dirtyPrice is the sum of each cash-flow
amount times `(1+y/f)^(−n)` with `n = frequency·t` continuous,
cleanPrice = dirtyPrice − accruedInterest, macaulayDuration =
durationSum/dirtyPrice (0 if dirtyPrice is 0), modifiedDuration =
macaulayDuration/(1+y/f), and convexity = convexitySum/(dirtyPrice·f²)
(0 if dirtyPrice is 0). -/
theorem C1_pricing_reference_formulas (b : Bond)
    (hdate : b.settlement_date.lt b.maturity_date)
    (hbase : 0 < b.discount_base) :
    b.calculate.dirty_price = dirtyPriceSpec b ∧
    b.calculate.clean_price = b.calculate.dirty_price - b.calculate.accrued_interest ∧
    b.calculate.macaulay_duration =
      (if b.calculate.dirty_price = 0 then 0
       else durationSumSpec b / b.calculate.dirty_price) ∧
    b.calculate.modified_duration = b.calculate.macaulay_duration / b.discount_base ∧
    b.calculate.convexity =
      (if b.calculate.dirty_price = 0 then 0
       else convexitySumSpec b / (b.calculate.dirty_price * (b.get_frequency_int : ℝ) ^ 2)) := by
  have hb0 : (0 : ℝ) ≤ b.discount_base := le_of_lt hbase
  have hdirty : codeDirtySum b = dirtyPriceSpec b := by
    unfold codeDirtySum dirtyPriceSpec
    have hfun : (fun cf : Date × ℝ => cf.2 * (1 / b.discount_base ^ (b.nPeriods cf.1))) =
        (fun cf : Date × ℝ => cf.2 * b.discount_base ^ (-(b.nPeriods cf.1))) := by
      funext cf
      rw [Real.rpow_neg hb0, one_div]
    rw [hfun]
  have hdur : codeDurationSum b = durationSumSpec b := by
    unfold codeDurationSum durationSumSpec
    have hfun : (fun cf : Date × ℝ =>
        b.calculate_year_fraction b.settlement_date cf.1 *
          (cf.2 * (1 / b.discount_base ^ (b.nPeriods cf.1)))) =
        (fun cf : Date × ℝ =>
          b.calculate_year_fraction b.settlement_date cf.1 *
            (cf.2 * b.discount_base ^ (-(b.nPeriods cf.1)))) := by
      funext cf
      rw [Real.rpow_neg hb0, one_div]
    rw [hfun]
  have hconv : codeConvexitySum b = convexitySumSpec b := by
    unfold codeConvexitySum convexitySumSpec
    have hfun : (fun cf : Date × ℝ =>
        cf.2 * b.nPeriods cf.1 * (b.nPeriods cf.1 + 1) /
          b.discount_base ^ (b.nPeriods cf.1 + 2)) =
        (fun cf : Date × ℝ =>
          cf.2 * b.nPeriods cf.1 * (b.nPeriods cf.1 + 1) *
            b.discount_base ^ (-(b.nPeriods cf.1 + 2))) := by
      funext cf
      rw [Real.rpow_neg hb0, div_eq_mul_inv]
    rw [hfun]
  rw [calculate_eq]
  dsimp only
  refine ⟨hdirty, rfl, ?_, rfl, ?_⟩
  · rcases eq_or_ne (codeDirtySum b) 0 with h | h
    · simp [h]
    · simp [h, hdur]
  · rcases eq_or_ne (codeDirtySum b) 0 with h | h
    · simp [h]
    · rw [if_neg h, if_pos h, hconv]
      ring_nf

/-- Witness for C1 at the regression bond of the spec. -/
theorem C1_pricing_reference_formulas_witness :
    testBond.settlement_date.lt testBond.maturity_date ∧ 0 < testBond.discount_base ∧
    (testBond.calculate.dirty_price = dirtyPriceSpec testBond ∧
     testBond.calculate.clean_price =
       testBond.calculate.dirty_price - testBond.calculate.accrued_interest ∧
     testBond.calculate.macaulay_duration =
       (if testBond.calculate.dirty_price = 0 then 0
        else durationSumSpec testBond / testBond.calculate.dirty_price) ∧
     testBond.calculate.modified_duration =
       testBond.calculate.macaulay_duration / testBond.discount_base ∧
     testBond.calculate.convexity =
       (if testBond.calculate.dirty_price = 0 then 0
        else convexitySumSpec testBond /
          (testBond.calculate.dirty_price * (testBond.get_frequency_int : ℝ) ^ 2))) :=
  ⟨by decide, by norm_num [Bond.discount_base, Bond.get_frequency_int, testBond],
    C1_pricing_reference_formulas testBond (by decide)
      (by norm_num [Bond.discount_base, Bond.get_frequency_int, testBond])⟩

/-! ## Claim C4: unrecognized day-count convention -/

/-- Claim C4 concerns the code's behaviour on an unrecognized day-count
convention: the source's fallback silently returns zero for every date
pair, instead of failing with `InvalidConvention` as the spec requires. -/
theorem C4_unknown_convention_silently_zero :
    ∀ d1 d2 : Date, unknownConvBond.calculate_year_fraction d1 d2 = 0 := by
  intro d1 d2
  unfold Bond.calculate_year_fraction
  rw [if_neg (by decide), if_neg (by decide), if_neg (by decide), if_neg (by decide)]

/-! ## Claim C2: shape of the cash-flow schedule -/

theorem freq_cases (b : Bond) : b.get_frequency_int = 1 ∨ b.get_frequency_int = 2 ∨
    b.get_frequency_int = 4 ∨ b.get_frequency_int = 12 := by
  unfold Bond.get_frequency_int
  split_ifs <;> simp

theorem freq_step_ge_one (b : Bond) : 1 ≤ 12 / (b.get_frequency_int : ℤ) := by
  rcases freq_cases b with h | h | h | h <;> rw [h] <;> norm_num

theorem stepBackDate_nice (s : ℤ) (hs : 1 ≤ s) (d : Date) (hd : NiceDate d) :
    NiceDate (stepBackDate s d) ∧ (stepBackDate s d).day = d.day := by
  obtain ⟨h1, h2, h3, h4⟩ := hd
  have hb := normMonthNeg_bounds d.year (d.month - s) (by omega)
  unfold stepBackDate
  rw [mkDateOr28_of_le_28 _ _ _ hb.1 hb.2 h3 h4]
  exact ⟨⟨hb.1, hb.2, h3, h4⟩, rfl⟩

theorem stepFwdDate_nice (s : ℤ) (hs : 1 ≤ s) (d : Date) (hd : NiceDate d) :
    NiceDate (stepFwdDate s d) ∧ (stepFwdDate s d).day = d.day := by
  obtain ⟨h1, h2, h3, h4⟩ := hd
  have hb := normMonthPos_bounds d.year (d.month + s) (by omega)
  unfold stepFwdDate
  rw [mkDateOr28_of_le_28 _ _ _ hb.1 hb.2 h3 h4]
  exact ⟨⟨hb.1, hb.2, h3, h4⟩, rfl⟩

theorem date_eq_of_idx_day (a b : Date) (ha : monthOk a) (hb : monthOk b)
    (hidx : monthIdx a = monthIdx b) (hday : a.day = b.day) : a = b := by
  obtain ⟨a1, a2⟩ := ha; obtain ⟨b1, b2⟩ := hb
  cases a; cases b
  simp only [monthIdx, Date.mk.injEq] at *
  omega

theorem stepFwd_stepBack (s : ℤ) (hs : 1 ≤ s) (d : Date) (hd : NiceDate d) :
    stepFwdDate s (stepBackDate s d) = d := by
  obtain ⟨hnb, hdb⟩ := stepBackDate_nice s hs d hd
  obtain ⟨hnf, hdf⟩ := stepFwdDate_nice s hs _ hnb
  refine date_eq_of_idx_day _ _ ⟨hnf.1, hnf.2.1⟩ ⟨hd.1, hd.2.1⟩ ?_ ?_
  · rw [stepFwdDate_idx, stepBackDate_idx]; ring
  · rw [hdf, hdb]

theorem backIter_props (s : ℤ) (hs : 1 ≤ s) (mt : Date) (hmt : NiceDate mt) :
    ∀ k : ℕ,
    NiceDate ((stepBackDate s)^[k] mt) ∧
    ((stepBackDate s)^[k] mt).day = mt.day ∧
    monthIdx ((stepBackDate s)^[k] mt) = monthIdx mt - k * s := by
  intro k
  induction k with
  | zero =>
    refine ⟨by simpa using hmt, by simp, by simp⟩
  | succ k ih =>
    rw [Function.iterate_succ_apply']
    obtain ⟨h1, h2, h3⟩ := ih
    obtain ⟨hn, hd⟩ := stepBackDate_nice s hs _ h1
    refine ⟨hn, by rw [hd, h2], ?_⟩
    rw [stepBackDate_idx, h3]
    push_cast
    ring

theorem lastCouponAux_iter (s : Date) (step : ℤ) (hstep : 1 ≤ step) (hs : monthOk s) :
    ∀ (f : ℕ) (c : Date), NiceDate c →
    ∃ K : ℕ, lastCouponAux s step f c = (stepBackDate step)^[K] c ∧
      (1 ≤ f → s.lt c → 1 ≤ K) := by
  intro f
  induction f with
  | zero =>
    intro c hc
    exact ⟨0, rfl, by intro h _; omega⟩
  | succ f ih =>
    intro c hc
    by_cases hg : 1 ≤ step ∧ monthOk c ∧ monthOk s ∧ s.lt c
    · obtain ⟨K, hK, _⟩ := ih (stepBackDate step c) (stepBackDate_nice step hstep c hc).1
      refine ⟨K + 1, ?_, by intro _ _; omega⟩
      simp only [lastCouponAux]
      rw [if_pos hg, stepBackAux_eq, hK, ← Function.iterate_succ_apply]
    · refine ⟨0, ?_, ?_⟩
      · simp only [lastCouponAux]
        rw [if_neg hg]
        rfl
      · intro _ hlt
        exact absurd ⟨hstep, ⟨hc.1, hc.2.1⟩, hs, hlt⟩ hg

theorem get_last_coupon_iter (b : Bond) (hmt : NiceDate b.maturity_date)
    (hs : monthOk b.settlement_date) (hlt : b.settlement_date.lt b.maturity_date) :
    ∃ K : ℕ, 1 ≤ K ∧ b.get_last_coupon_date =
      (stepBackDate (12 / (b.get_frequency_int : ℤ)))^[K] b.maturity_date := by
  have hstep : 1 ≤ 12 / (b.get_frequency_int : ℤ) := freq_step_ge_one b
  have hfuel : 1 ≤ (monthIdx b.maturity_date - monthIdx b.settlement_date +
      12 / (b.get_frequency_int : ℤ)).toNat := by
    have := monthIdx_le_of_lt _ _ hs ⟨hmt.1, hmt.2.1⟩ hlt
    omega
  obtain ⟨K, hK, hK1⟩ := lastCouponAux_iter b.settlement_date
    (12 / (b.get_frequency_int : ℤ)) hstep hs
    ((monthIdx b.maturity_date - monthIdx b.settlement_date +
      12 / (b.get_frequency_int : ℤ)).toNat) b.maturity_date hmt
  refine ⟨K, hK1 hfuel hlt, ?_⟩
  unfold Bond.get_last_coupon_date
  rw [← lastCouponAux_spec b.settlement_date _ _ _ (le_refl _), hK]

theorem cashFlowsLoop_iter (mt : Date) (step : ℤ) (cv fv : ℝ) (hstep : 1 ≤ step)
    (hmt : NiceDate mt) : ∀ j : ℕ,
    cashFlowsLoop mt step cv fv ((stepBackDate step)^[j] mt) =
      ((List.range (j + 1)).reverse.map
        (fun i => ((stepBackDate step)^[i] mt, if i = 0 then cv + fv else cv))) := by
  intro j
  induction j with
  | zero =>
    rw [Function.iterate_zero_apply]
    rw [cashFlowsLoop, dif_pos ⟨hstep, ⟨hmt.1, hmt.2.1⟩, ⟨hmt.1, hmt.2.1⟩, Or.inr rfl⟩]
    have hfn := stepFwdDate_nice step hstep mt hmt
    have hnext : ¬ ((stepFwdDate step mt).le mt) := by
      apply not_le_of_monthIdx_lt _ _ ⟨hfn.1.1, hfn.1.2.1⟩ ⟨hmt.1, hmt.2.1⟩
      rw [stepFwdDate_idx]
      omega
    rw [cashFlowsLoop, dif_neg (fun hg => hnext hg.2.2.2),
      show (List.range 1) = [0] from rfl]
    simp
  | succ j ih =>
    have hiterj := backIter_props step hstep mt hmt j
    have hiter := backIter_props step hstep mt hmt (j + 1)
    obtain ⟨hnice, hday, hidx⟩ := hiter
    have hjpos : (0 : ℤ) < ((j + 1 : ℕ) : ℤ) * step := by
      have h1 : (0 : ℤ) < ((j + 1 : ℕ) : ℤ) := by positivity
      exact mul_pos h1 (lt_of_lt_of_le zero_lt_one hstep)
    have hcle : ((stepBackDate step)^[j + 1] mt).le mt := by
      left
      apply lt_of_monthIdx_lt _ _ ⟨hnice.1, hnice.2.1⟩ ⟨hmt.1, hmt.2.1⟩
      omega
    rw [cashFlowsLoop, dif_pos ⟨hstep, ⟨hnice.1, hnice.2.1⟩, ⟨hmt.1, hmt.2.1⟩, hcle⟩]
    have hne : (stepBackDate step)^[j + 1] mt ≠ mt := by
      intro he
      have := congrArg monthIdx he
      rw [hidx] at this
      omega
    rw [if_neg hne]
    have hnext : stepFwdDate step ((stepBackDate step)^[j + 1] mt) =
        (stepBackDate step)^[j] mt := by
      rw [Function.iterate_succ_apply']
      exact stepFwd_stepBack step hstep _ hiterj.1
    rw [hnext, ih]
    rw [show (List.range (j + 2)).reverse = (j + 1) :: (List.range (j + 1)).reverse from by
      rw [List.range_succ, List.reverse_append]; rfl]
    rw [List.map_cons, if_neg (Nat.succ_ne_zero j)]

theorem chain_desc (s : ℤ) (hs : 1 ≤ s) (mt : Date) (hmt : NiceDate mt) : ∀ K : ℕ,
    List.Chain' Date.lt ((List.range K).reverse.map
      (fun i => (stepBackDate s)^[i] mt)) := by
  intro K
  induction K with
  | zero => simp
  | succ K ih =>
    rw [show (List.range (K + 1)).reverse = K :: (List.range K).reverse from by
      rw [List.range_succ, List.reverse_append]; rfl, List.map_cons]
    rw [List.chain'_cons']
    refine ⟨?_, ih⟩
    intro y hy
    rw [List.head?_map, List.head?_reverse] at hy
    cases K with
    | zero => simp at hy
    | succ k =>
      rw [List.range_succ, List.getLast?_concat] at hy
      simp only [Option.map_some', Option.mem_def] at hy
      obtain rfl : ((stepBackDate s)^[k] mt) = y := Option.some.inj hy
      have hk := backIter_props s hs mt hmt k
      have hk1 := backIter_props s hs mt hmt (k + 1)
      apply lt_of_monthIdx_lt _ _ ⟨hk1.1.1, hk1.1.2.1⟩ ⟨hk.1.1, hk.1.2.1⟩
      rw [hk.2.2, hk1.2.2]
      have : (0 : ℤ) < s := lt_of_lt_of_le zero_lt_one hs
      push_cast
      nlinarith

/-- Amended claim C2: for every bond whose maturity date is a valid date
with day ≤ 28 (so the clamp-to-day-28 fallback never fires), a valid
settlement month, and settlement < maturity, the generated cash-flow
sequence is a finite, strictly chronologically increasing list; every
entry not dated at maturity carries exactly the periodic coupon, the
final entry is dated exactly at the maturity date, and any entry dated at
maturity carries the coupon plus the face value.  (The day ≤ 28
restriction is forced: with a maturity day of 29–31 the clamping can make
every generated date miss the maturity date, so that no entry carries the
face value — see the counterexample.) -/
theorem C2_schedule_shape (b : Bond) (hmt : NiceDate b.maturity_date)
    (hs : monthOk b.settlement_date) (hlt : b.settlement_date.lt b.maturity_date) :
    b.cash_flows ≠ [] ∧
    List.Chain' Date.lt (b.cash_flows.map Prod.fst) ∧
    b.cash_flows.getLast? = some (b.maturity_date, b.coupon_val + b.face_value) ∧
    (∀ cf ∈ b.cash_flows, cf.1 ≠ b.maturity_date → cf.2 = b.coupon_val) ∧
    (∀ cf ∈ b.cash_flows, cf.1 = b.maturity_date →
      cf.2 = b.coupon_val + b.face_value) := by
  have hstep : 1 ≤ 12 / (b.get_frequency_int : ℤ) := freq_step_ge_one b
  obtain ⟨K, hK1, hKeq⟩ := get_last_coupon_iter b hmt hs hlt
  obtain ⟨K', rfl⟩ : ∃ K', K = K' + 1 := ⟨K - 1, by omega⟩
  have hflows : b.cash_flows = ((List.range (K' + 1)).reverse.map
      (fun i => ((stepBackDate (12 / (b.get_frequency_int : ℤ)))^[i] b.maturity_date,
        if i = 0 then b.coupon_val + b.face_value else b.coupon_val))) := by
    show cashFlowsLoop b.maturity_date (12 / (b.get_frequency_int : ℤ))
        b.coupon_val b.face_value
        (stepFwdDate (12 / (b.get_frequency_int : ℤ)) b.get_last_coupon_date) = _
    rw [hKeq, Function.iterate_succ_apply',
      stepFwd_stepBack _ hstep _ (backIter_props _ hstep _ hmt K').1]
    exact cashFlowsLoop_iter b.maturity_date _ b.coupon_val b.face_value hstep hmt K'
  refine ⟨?_, ?_, ?_, ?_, ?_⟩
  · rw [hflows]
    simp
  · rw [hflows, List.map_map]
    have hcomp : (Prod.fst ∘ fun i =>
        (((stepBackDate (12 / (b.get_frequency_int : ℤ)))^[i] b.maturity_date : Date),
          if i = 0 then b.coupon_val + b.face_value else b.coupon_val)) =
        (fun i => (stepBackDate (12 / (b.get_frequency_int : ℤ)))^[i] b.maturity_date) :=
      rfl
    rw [hcomp]
    exact chain_desc _ hstep _ hmt (K' + 1)
  · rw [hflows, List.getLast?_map, List.getLast?_reverse]
    rw [show (List.range (K' + 1)).head? = some 0 from by
      rw [List.range_succ_eq_map]; rfl]
    simp
  · rw [hflows]
    intro cf hcf hne
    rw [List.mem_map] at hcf
    obtain ⟨i, _, rfl⟩ := hcf
    by_cases hi : i = 0
    · subst hi
      simp only [Function.iterate_zero_apply] at hne
      exact absurd rfl hne
    · rw [if_neg hi]
  · rw [hflows]
    intro cf hcf heq
    rw [List.mem_map] at hcf
    obtain ⟨i, _, rfl⟩ := hcf
    by_cases hi : i = 0
    · subst hi; rfl
    · exfalso
      simp only at heq
      have hidx := (backIter_props _ hstep _ hmt i).2.2
      rw [heq] at hidx
      have h1 : (0 : ℤ) < (i : ℤ) * (12 / (b.get_frequency_int : ℤ)) := by
        have h2 : (0 : ℤ) < (i : ℤ) := by positivity
        exact mul_pos h2 (lt_of_lt_of_le zero_lt_one hstep)
      omega

/-- Witness for the amended C2 at the regression bond. -/
theorem C2_schedule_shape_witness :
    NiceDate testBond.maturity_date ∧ monthOk testBond.settlement_date ∧
    testBond.settlement_date.lt testBond.maturity_date ∧
    (testBond.cash_flows ≠ [] ∧
     List.Chain' Date.lt (testBond.cash_flows.map Prod.fst) ∧
     testBond.cash_flows.getLast? =
       some (testBond.maturity_date, testBond.coupon_val + testBond.face_value) ∧
     (∀ cf ∈ testBond.cash_flows, cf.1 ≠ testBond.maturity_date →
       cf.2 = testBond.coupon_val) ∧
     (∀ cf ∈ testBond.cash_flows, cf.1 = testBond.maturity_date →
       cf.2 = testBond.coupon_val + testBond.face_value)) :=
  ⟨by decide, by decide, by decide,
    C2_schedule_shape testBond (by decide) (by decide) (by decide)⟩

/-- Counterexample to C2 as stated: a monthly bond maturing 2026-05-30
settling 2026-02-15.  Stepping back through February clamps the day to
28, the forward schedule then runs on day 28 and never hits the maturity
date: the final entry is dated 2026-05-28 ≠ 2026-05-30 and every entry
carries only the periodic coupon — the face value is dropped entirely. -/
theorem C2_clamped_schedule_misses_maturity :
    clampBond.settlement_date.lt clampBond.maturity_date ∧
    clampBond.cash_flows.map Prod.fst =
      [⟨2026, 2, 28⟩, ⟨2026, 3, 28⟩, ⟨2026, 4, 28⟩, ⟨2026, 5, 28⟩] ∧
    clampBond.maturity_date ∉ clampBond.cash_flows.map Prod.fst ∧
    (∀ cf ∈ clampBond.cash_flows, cf.2 = clampBond.coupon_val) := by
  have hfreq : clampBond.get_frequency_int = 12 := rfl
  have hlast : clampBond.get_last_coupon_date = ⟨2026, 1, 28⟩ := by
    rw [get_last_coupon_date_eval clampBond 10 (by decide)]
    decide
  have hflows : clampBond.cash_flows =
      [(⟨2026, 2, 28⟩, clampBond.coupon_val), (⟨2026, 3, 28⟩, clampBond.coupon_val),
       (⟨2026, 4, 28⟩, clampBond.coupon_val), (⟨2026, 5, 28⟩, clampBond.coupon_val)] := by
    rw [cash_flows_eval clampBond 10 (by rw [hlast]; decide), hlast,
      show cfDatesAux clampBond.maturity_date (12 / (clampBond.get_frequency_int : ℤ)) 10
          (firstCouponDate (⟨2026, 1, 28⟩ : Date)
            (12 / (clampBond.get_frequency_int : ℤ))) =
        [⟨2026, 2, 28⟩, ⟨2026, 3, 28⟩, ⟨2026, 4, 28⟩, ⟨2026, 5, 28⟩] from by decide]
    norm_num [show clampBond.maturity_date = ⟨2026, 5, 30⟩ from rfl, Date.mk.injEq]
  refine ⟨by decide, ?_, ?_, ?_⟩
  · rw [hflows]; rfl
  · rw [hflows]; decide
  · rw [hflows]
    intro cf hcf
    simp only [List.mem_cons, List.not_mem_nil, or_false] at hcf
    rcases hcf with rfl | rfl | rfl | rfl <;> rfl

/-! ## Claim C3: settlement on or after maturity is not rejected -/

/-- Claim C3 requires the pricing computation to fail with
`InvalidDateRange` when settlement ≥ maturity.  The code raises no error:
for a settlement six months after maturity, `get_last_coupon_date`
returns the maturity date itself, the schedule is empty, and `calculate`
returns a degenerate record (dirty price 0, negative clean price, 180
"accrued" days) instead of failing. -/
theorem C3_settlement_after_maturity_no_error :
    pastBond.maturity_date.lt pastBond.settlement_date ∧
    pastBond.get_last_coupon_date = pastBond.maturity_date ∧
    pastBond.cash_flows = [] ∧
    pastBond.calculate = ⟨0, -(5 / 2 : ℝ), 5 / 2, 180, 0, 0, 0⟩ := by
  have hfreq : pastBond.get_frequency_int = 1 := rfl
  have hlast : pastBond.get_last_coupon_date = pastBond.maturity_date := by
    rw [get_last_coupon_date_eval pastBond 6 (by decide)]
    decide
  have hflows : pastBond.cash_flows = [] := by
    rw [cash_flows_eval pastBond 1 (by rw [hlast]; decide), hlast,
      show cfDatesAux pastBond.maturity_date (12 / (pastBond.get_frequency_int : ℤ)) 1
        (firstCouponDate pastBond.maturity_date (12 / (pastBond.get_frequency_int : ℤ))) =
        ([] : List Date) from by decide]
    rfl
  have hd : calculate_days_30360 pastBond.maturity_date pastBond.settlement_date = 180 := by
    decide
  have hcv : pastBond.coupon_val = 5 := by
    unfold Bond.coupon_val
    rw [hfreq, show pastBond.face_value = 100 from rfl, show pastBond.coupon_rate = 5 from rfl]
    norm_num
  have hap : pastBond.accrued_pair = (180, 5 / 2) := by
    simp only [Bond.accrued_pair]
    rw [if_pos (show pastBond.convention = "30/360" from rfl), hlast, hd, hcv, hfreq]
    norm_num [Prod.ext_iff]
  have hdirty : codeDirtySum pastBond = 0 := by
    simp [codeDirtySum, hflows]
  refine ⟨by decide, hlast, hflows, ?_⟩
  rw [calculate_eq, hap, hdirty]
  simp only [CalcResult.mk.injEq]
  norm_num

/-! ## Claim C5: a non-positive discount base is not rejected -/

/-- Claim C5 requires the pricing computation to fail with `InvalidYield`
when `1 + yieldRate/frequency ≤ 0`.  The code has no such guard: at
yield −200% (discount base −1) it evaluates the power terms and returns
dirty price −105 instead of failing. -/
theorem C5_no_invalid_yield_guard :
    negYieldBond.discount_base = -1 ∧ negYieldBond.calculate.dirty_price = -105 := by
  have hfreq : negYieldBond.get_frequency_int = 1 := rfl
  have hbase : negYieldBond.discount_base = -1 := by
    unfold Bond.discount_base
    rw [hfreq, show negYieldBond.yield_rate = -200 from rfl]
    norm_num
  have hlast : negYieldBond.get_last_coupon_date = ⟨2026, 1, 23⟩ := by
    rw [get_last_coupon_date_eval negYieldBond 48 (by decide)]
    decide
  have hflows : negYieldBond.cash_flows =
      [(⟨2027, 1, 23⟩, negYieldBond.coupon_val),
       (⟨2028, 1, 23⟩, negYieldBond.coupon_val),
       (⟨2029, 1, 23⟩, negYieldBond.coupon_val + negYieldBond.face_value)] := by
    rw [cash_flows_eval negYieldBond 40 (by rw [hlast]; decide), hlast,
      show cfDatesAux negYieldBond.maturity_date
          (12 / (negYieldBond.get_frequency_int : ℤ)) 40
          (firstCouponDate (⟨2026, 1, 23⟩ : Date)
            (12 / (negYieldBond.get_frequency_int : ℤ))) =
        [⟨2027, 1, 23⟩, ⟨2028, 1, 23⟩, ⟨2029, 1, 23⟩] from by decide]
    norm_num [show negYieldBond.maturity_date = ⟨2029, 1, 23⟩ from rfl, Date.mk.injEq]
  have ht1 : negYieldBond.nPeriods ⟨2027, 1, 23⟩ = 1 := by
    unfold Bond.nPeriods Bond.calculate_year_fraction
    rw [if_pos (show negYieldBond.convention = "30/360" from rfl),
      show calculate_days_30360 negYieldBond.settlement_date ⟨2027, 1, 23⟩ = 360 from by decide]
    norm_num [hfreq]
  have ht2 : negYieldBond.nPeriods ⟨2028, 1, 23⟩ = 2 := by
    unfold Bond.nPeriods Bond.calculate_year_fraction
    rw [if_pos (show negYieldBond.convention = "30/360" from rfl),
      show calculate_days_30360 negYieldBond.settlement_date ⟨2028, 1, 23⟩ = 720 from by decide]
    norm_num [hfreq]
  have ht3 : negYieldBond.nPeriods ⟨2029, 1, 23⟩ = 3 := by
    unfold Bond.nPeriods Bond.calculate_year_fraction
    rw [if_pos (show negYieldBond.convention = "30/360" from rfl),
      show calculate_days_30360 negYieldBond.settlement_date ⟨2029, 1, 23⟩ = 1080 from by decide]
    norm_num [hfreq]
  have hp1 : ((-1 : ℝ)) ^ (1 : ℝ) = -1 := Real.rpow_one _
  have hp2 : ((-1 : ℝ)) ^ (2 : ℝ) = 1 := by
    rw [show (2 : ℝ) = ((2 : ℕ) : ℝ) by norm_num, Real.rpow_natCast]
    norm_num
  have hp3 : ((-1 : ℝ)) ^ (3 : ℝ) = -1 := by
    rw [show (3 : ℝ) = ((3 : ℕ) : ℝ) by norm_num, Real.rpow_natCast]
    norm_num
  have hcv : negYieldBond.coupon_val = 5 := by
    unfold Bond.coupon_val
    rw [hfreq, show negYieldBond.face_value = 100 from rfl,
      show negYieldBond.coupon_rate = 5 from rfl]
    norm_num
  have hfv : negYieldBond.face_value = 100 := rfl
  refine ⟨hbase, ?_⟩
  rw [calculate_eq]
  dsimp only
  unfold codeDirtySum
  rw [hflows]
  simp only [List.map_cons, List.map_nil, List.sum_cons, List.sum_nil]
  rw [ht1, ht2, ht3, hbase, hp1, hp2, hp3, hcv, hfv]
  norm_num

/-! ## Claim C8: duration versus coupon rate -/

theorem list_sum_map_add {α : Type} (f g : α → ℝ) : ∀ l : List α,
    (l.map (fun x => f x + g x)).sum = (l.map f).sum + (l.map g).sum := by
  intro l
  induction l with
  | nil => simp
  | cons x xs ih => simp only [List.map_cons, List.sum_cons, ih]; ring

theorem list_sum_map_mul {α : Type} (a : ℝ) (f : α → ℝ) : ∀ l : List α,
    (l.map (fun x => a * f x)).sum = a * (l.map f).sum := by
  intro l
  induction l with
  | nil => simp
  | cons x xs ih => simp only [List.map_cons, List.sum_cons, ih]; ring

theorem list_sum_map_sub {α : Type} (f g : α → ℝ) : ∀ l : List α,
    (l.map (fun x => f x - g x)).sum = (l.map f).sum - (l.map g).sum := by
  intro l
  induction l with
  | nil => simp
  | cons x xs ih => simp only [List.map_cons, List.sum_cons, ih]; ring

theorem list_sum_map_nonneg {α : Type} (f : α → ℝ) : ∀ l : List α,
    (∀ x ∈ l, 0 ≤ f x) → 0 ≤ (l.map f).sum := by
  intro l
  induction l with
  | nil => intro _; simp
  | cons x xs ih =>
    intro h
    simp only [List.map_cons, List.sum_cons]
    have h1 := h x (by simp)
    have h2 := ih (fun y hy => h y (by simp [hy]))
    linarith

theorem list_sum_map_pos {α : Type} (f : α → ℝ) : ∀ l : List α,
    (∀ x ∈ l, 0 < f x) → l ≠ [] → 0 < (l.map f).sum := by
  intro l
  induction l with
  | nil => intro _ h; exact absurd rfl h
  | cons x xs _ =>
    intro h _
    simp only [List.map_cons, List.sum_cons]
    have hx := h x (by simp)
    have hxs : 0 ≤ (xs.map f).sum :=
      list_sum_map_nonneg f xs (fun y hy => le_of_lt (h y (by simp [hy])))
    linarith

/-- Amended claim C8: holding all other bond fields fixed, increasing the
coupon rate strictly decreases the Macaulay duration, provided the bond
is regular: positive discount base, positive face value, nonnegative
coupon rates, at least two remaining cash flows, the final flow dated at
maturity, and every earlier flow discounted over a strictly smaller year
fraction than maturity.  (The regularity conditions are forced: with a
single remaining cash flow the duration is the same weighted time for
every coupon rate — see the counterexample.) -/
theorem C8_duration_strictly_decreasing (b : Bond) (c1 c2 : ℝ)
    (hbase : 0 < b.discount_base)
    (hface : 0 < b.face_value)
    (hc1 : 0 ≤ c1) (hc : c1 < c2)
    (hlen : 2 ≤ b.cash_flows.length)
    (hlast : (b.cash_flows.map Prod.fst).getLast? = some b.maturity_date)
    (ht : ∀ d ∈ (b.cash_flows.map Prod.fst).dropLast,
      b.calculate_year_fraction b.settlement_date d <
        b.calculate_year_fraction b.settlement_date b.maturity_date) :
    ({b with coupon_rate := c2}).calculate.macaulay_duration <
      ({b with coupon_rate := c1}).calculate.macaulay_duration := by
  -- the shared date schedule
  have hbflows := cash_flows_eval b
    ((monthIdx b.maturity_date - monthIdx b.get_last_coupon_date).toNat) (le_refl _)
  set F := (monthIdx b.maturity_date - monthIdx b.get_last_coupon_date).toNat with hF
  set D := cfDatesAux b.maturity_date (12 / (b.get_frequency_int : ℤ)) F
    (firstCouponDate b.get_last_coupon_date (12 / (b.get_frequency_int : ℤ))) with hDdef
  have hDfst : b.cash_flows.map Prod.fst = D := by
    rw [hbflows, List.map_map]
    rw [show (Prod.fst ∘ fun d => ((d : Date),
      if d = b.maturity_date then b.coupon_val + b.face_value else b.coupon_val)) = id
      from rfl, List.map_id]
  have hDlen : 2 ≤ D.length := by
    have hl : b.cash_flows.length = D.length := by
      rw [← hDfst, List.length_map]
    omega
  have hDne : D ≠ [] := by
    intro h
    rw [h] at hDlen
    simp at hDlen
  have hDlast : D.getLast? = some b.maturity_date := by rw [← hDfst]; exact hlast
  have htD : ∀ d ∈ D.dropLast, b.calculate_year_fraction b.settlement_date d <
      b.calculate_year_fraction b.settlement_date b.maturity_date := by
    intro d hd
    exact ht d (by rw [hDfst]; exact hd)
  have hsplit : D.dropLast ++ [b.maturity_date] = D := by
    have h1 := List.getLast?_eq_getLast D hDne
    rw [h1] at hDlast
    have h2 : D.getLast hDne = b.maturity_date := Option.some.inj hDlast
    rw [← h2]
    exact List.dropLast_append_getLast hDne
  have hne_mt : ∀ d ∈ D.dropLast, d ≠ b.maturity_date := by
    intro d hd he
    have := htD d hd
    rw [he] at this
    exact lt_irrefl _ this
  have hflows : ∀ c : ℝ, ({b with coupon_rate := c}).cash_flows =
      D.map (fun d => (d, if d = b.maturity_date
        then ({b with coupon_rate := c}).coupon_val + b.face_value
        else ({b with coupon_rate := c}).coupon_val)) := by
    intro c
    exact cash_flows_eval {b with coupon_rate := c} F (le_refl _)
  have hdf_pos : ∀ d, (0 : ℝ) < 1 / b.discount_base ^ (b.nPeriods d) := by
    intro d
    have := Real.rpow_pos_of_pos hbase (b.nPeriods d)
    positivity
  have hproj1 : ∀ c : ℝ, ({b with coupon_rate := c} : Bond).discount_base =
      b.discount_base := fun _ => rfl
  have hproj2 : ∀ (c : ℝ) (d : Date), ({b with coupon_rate := c} : Bond).nPeriods d =
      b.nPeriods d := fun _ _ => rfl
  have hproj3 : ∀ (c : ℝ) (d : Date),
      ({b with coupon_rate := c} : Bond).calculate_year_fraction b.settlement_date d =
      b.calculate_year_fraction b.settlement_date d := fun _ _ => rfl
  have hsum : ∀ (cv : ℝ) (g : Date → ℝ),
      (D.map (fun d => (if d = b.maturity_date then cv + b.face_value else cv) * g d)).sum =
        cv * (D.map g).sum + b.face_value * g b.maturity_date := by
    intro cv g
    conv_lhs => rw [← hsplit]
    conv_rhs => rw [← hsplit]
    rw [List.map_append, List.sum_append, List.map_append, List.sum_append]
    rw [List.map_congr_left (fun d hd => by rw [if_neg (hne_mt d hd)])]
    simp only [List.map_cons, List.map_nil, List.sum_cons, List.sum_nil,
      eq_self_iff_true, if_true]
    rw [list_sum_map_mul]
    ring
  have hdirty : ∀ c : ℝ, codeDirtySum {b with coupon_rate := c} =
      ({b with coupon_rate := c}).coupon_val *
        (D.map (fun d => 1 / b.discount_base ^ (b.nPeriods d))).sum +
        b.face_value * (1 / b.discount_base ^ (b.nPeriods b.maturity_date)) := by
    intro c
    unfold codeDirtySum
    rw [hflows c, List.map_map]
    refine Eq.trans (congrArg List.sum (List.map_congr_left ?_))
      (hsum ({b with coupon_rate := c}).coupon_val
        (fun d => 1 / b.discount_base ^ (b.nPeriods d)))
    intro d _
    dsimp only [Function.comp]
    rw [hproj1 c, hproj2 c d]
  have hdur : ∀ c : ℝ, codeDurationSum {b with coupon_rate := c} =
      ({b with coupon_rate := c}).coupon_val *
        (D.map (fun d => b.calculate_year_fraction b.settlement_date d *
          (1 / b.discount_base ^ (b.nPeriods d)))).sum +
        b.face_value * (b.calculate_year_fraction b.settlement_date b.maturity_date *
          (1 / b.discount_base ^ (b.nPeriods b.maturity_date))) := by
    intro c
    unfold codeDurationSum
    rw [hflows c, List.map_map]
    refine Eq.trans (congrArg List.sum (List.map_congr_left ?_))
      (hsum ({b with coupon_rate := c}).coupon_val
        (fun d => b.calculate_year_fraction b.settlement_date d *
          (1 / b.discount_base ^ (b.nPeriods d))))
    intro d _
    dsimp only [Function.comp]
    rw [hproj1 c, hproj2 c d, hproj3 c d]
    ring
  have hcv : ∀ c : ℝ, ({b with coupon_rate := c}).coupon_val =
      b.face_value * (c / 100) / (b.get_frequency_int : ℝ) := fun c => rfl
  have hfreq_pos : (0 : ℝ) < (b.get_frequency_int : ℝ) := by
    rcases freq_cases b with h | h | h | h <;> rw [h] <;> norm_num
  have hcv1 : 0 ≤ ({b with coupon_rate := c1}).coupon_val := by
    rw [hcv]
    positivity
  have hcvlt : ({b with coupon_rate := c1}).coupon_val <
      ({b with coupon_rate := c2}).coupon_val := by
    rw [hcv, hcv]
    gcongr
  have hcv2 : 0 ≤ ({b with coupon_rate := c2}).coupon_val :=
    le_of_lt (lt_of_le_of_lt hcv1 hcvlt)
  have hS0 : 0 ≤ (D.map (fun d => 1 / b.discount_base ^ (b.nPeriods d))).sum :=
    list_sum_map_nonneg _ D (fun d _ => le_of_lt (hdf_pos d))
  have hdm := hdf_pos b.maturity_date
  have hd1 : 0 < codeDirtySum {b with coupon_rate := c1} := by
    rw [hdirty c1]
    nlinarith [mul_nonneg hcv1 hS0, mul_pos hface hdm]
  have hd2 : 0 < codeDirtySum {b with coupon_rate := c2} := by
    rw [hdirty c2]
    nlinarith [mul_nonneg hcv2 hS0, mul_pos hface hdm]
  have hkey : (D.map (fun d => b.calculate_year_fraction b.settlement_date d *
      (1 / b.discount_base ^ (b.nPeriods d)))).sum <
      b.calculate_year_fraction b.settlement_date b.maturity_date *
        (D.map (fun d => 1 / b.discount_base ^ (b.nPeriods d))).sum := by
    rw [← list_sum_map_mul (b.calculate_year_fraction b.settlement_date b.maturity_date)
      (fun d => 1 / b.discount_base ^ (b.nPeriods d)) D]
    rw [← sub_pos, ← list_sum_map_sub]
    have hform : (D.map (fun d =>
        b.calculate_year_fraction b.settlement_date b.maturity_date *
          (1 / b.discount_base ^ (b.nPeriods d)) -
        b.calculate_year_fraction b.settlement_date d *
          (1 / b.discount_base ^ (b.nPeriods d)))).sum =
        (D.dropLast.map (fun d =>
          (b.calculate_year_fraction b.settlement_date b.maturity_date -
            b.calculate_year_fraction b.settlement_date d) *
          (1 / b.discount_base ^ (b.nPeriods d)))).sum := by
      conv_lhs => rw [← hsplit]
      rw [List.map_append, List.sum_append]
      simp only [List.map_cons, List.map_nil, List.sum_cons, List.sum_nil]
      have hmaps : D.dropLast.map (fun d =>
          b.calculate_year_fraction b.settlement_date b.maturity_date *
            (1 / b.discount_base ^ (b.nPeriods d)) -
          b.calculate_year_fraction b.settlement_date d *
            (1 / b.discount_base ^ (b.nPeriods d))) =
          D.dropLast.map (fun d =>
            (b.calculate_year_fraction b.settlement_date b.maturity_date -
              b.calculate_year_fraction b.settlement_date d) *
            (1 / b.discount_base ^ (b.nPeriods d))) :=
        List.map_congr_left (fun d _ => by ring)
      rw [hmaps]
      ring
    rw [hform]
    apply list_sum_map_pos
    · intro d hd
      exact mul_pos (sub_pos.mpr (htD d hd)) (hdf_pos d)
    · intro h
      have h2 := congrArg List.length hsplit
      rw [h] at h2
      simp at h2
      omega
  rw [calculate_eq, calculate_eq]
  dsimp only
  rw [if_pos (ne_of_gt hd2), if_pos (ne_of_gt hd1)]
  rw [div_lt_div_iff₀ hd2 hd1, hdirty c1, hdirty c2, hdur c1, hdur c2]
  nlinarith [mul_pos (mul_pos (mul_pos hface hdm) (sub_pos.mpr hcvlt)) (sub_pos.mpr hkey),
    hS0, hd1, hd2]

/-- For the single-flow bond the Macaulay duration equals the year
fraction of its lone cash flow, independently of the coupon rate. -/
theorem singleFlowBond_macaulay (c : ℝ) (hc : 0 ≤ c) :
    (singleFlowBond c).calculate.macaulay_duration = 232 / 360 := by
  have hfreq : (singleFlowBond c).get_frequency_int = 1 := rfl
  have hmt : (singleFlowBond c).maturity_date = ⟨2029, 1, 23⟩ := rfl
  have hst : (singleFlowBond c).settlement_date = ⟨2028, 6, 1⟩ := rfl
  have hlast : (singleFlowBond c).get_last_coupon_date = ⟨2028, 1, 23⟩ := by
    rw [get_last_coupon_date_eval (singleFlowBond c) 20 (by rw [hmt, hst, hfreq]; decide)]
    rw [hmt, hst, hfreq]
    decide
  have hflows : (singleFlowBond c).cash_flows =
      [(⟨2029, 1, 23⟩, (singleFlowBond c).coupon_val + (singleFlowBond c).face_value)] := by
    rw [cash_flows_eval (singleFlowBond c) 20 (by rw [hlast, hmt]; decide), hlast,
      show cfDatesAux (singleFlowBond c).maturity_date
          (12 / ((singleFlowBond c).get_frequency_int : ℤ)) 20
          (firstCouponDate (⟨2028, 1, 23⟩ : Date)
            (12 / ((singleFlowBond c).get_frequency_int : ℤ))) =
        [⟨2029, 1, 23⟩] from by rw [hmt, hfreq]; decide]
    simp [hmt]
  have htf : (singleFlowBond c).calculate_year_fraction
      (singleFlowBond c).settlement_date ⟨2029, 1, 23⟩ = 232 / 360 := by
    unfold Bond.calculate_year_fraction
    rw [if_pos (show (singleFlowBond c).convention = "30/360" from rfl),
      show calculate_days_30360 (singleFlowBond c).settlement_date ⟨2029, 1, 23⟩ = 232
        from by rw [hst]; decide]
    norm_num
  have ht : (singleFlowBond c).nPeriods ⟨2029, 1, 23⟩ = 232 / 360 := by
    unfold Bond.nPeriods
    rw [hfreq, htf]
    norm_num
  have hbase : (singleFlowBond c).discount_base = 53 / 50 := by
    unfold Bond.discount_base
    rw [hfreq, show (singleFlowBond c).yield_rate = 6 from rfl]
    norm_num
  have hcv : (singleFlowBond c).coupon_val = c := by
    unfold Bond.coupon_val
    rw [hfreq, show (singleFlowBond c).face_value = 100 from rfl,
      show (singleFlowBond c).coupon_rate = c from rfl]
    push_cast
    ring
  have hfv : (singleFlowBond c).face_value = 100 := rfl
  have hrp : (0 : ℝ) < (53 / 50 : ℝ) ^ ((232 : ℝ) / 360) :=
    Real.rpow_pos_of_pos (by norm_num) _
  have hApos : (0 : ℝ) < (c + 100) * (1 / (53 / 50 : ℝ) ^ ((232 : ℝ) / 360)) :=
    mul_pos (by linarith) (div_pos one_pos hrp)
  have hdirty : codeDirtySum (singleFlowBond c) =
      (c + 100) * (1 / (53 / 50 : ℝ) ^ ((232 : ℝ) / 360)) := by
    unfold codeDirtySum
    rw [hflows]
    simp only [List.map_cons, List.map_nil, List.sum_cons, List.sum_nil]
    rw [ht, hbase, hcv, hfv]
    ring
  have hdur : codeDurationSum (singleFlowBond c) =
      232 / 360 * ((c + 100) * (1 / (53 / 50 : ℝ) ^ ((232 : ℝ) / 360))) := by
    unfold codeDurationSum
    rw [hflows]
    simp only [List.map_cons, List.map_nil, List.sum_cons, List.sum_nil]
    rw [ht, htf, hbase, hcv, hfv]
    ring
  rw [calculate_eq]
  dsimp only
  rw [hdirty, hdur, if_pos (ne_of_gt hApos)]
  rw [mul_div_assoc, div_self (ne_of_gt hApos), mul_one]

/-- Counterexample to claim C8 as stated for every bond: for a bond with
a single remaining cash flow (settlement 2028-06-01, annual coupons,
maturity 2029-01-23), raising the coupon rate from 5 to 10 with all other
fields fixed leaves the Macaulay duration unchanged — both equal the lone
flow's year fraction 232/360 — so the strict decrease fails. -/
theorem C8_single_flow_duration_constant :
    singleFlowBond 10 = {singleFlowBond 5 with coupon_rate := 10} ∧ (5 : ℝ) < 10 ∧
    (singleFlowBond 10).calculate.macaulay_duration =
      (singleFlowBond 5).calculate.macaulay_duration := by
  refine ⟨rfl, by norm_num, ?_⟩
  rw [singleFlowBond_macaulay 10 (by norm_num), singleFlowBond_macaulay 5 (by norm_num)]

/-- The dates of the regression bond's cash-flow schedule. -/
theorem testBond_flow_dates : testBond.cash_flows.map Prod.fst =
    [⟨2027, 1, 23⟩, ⟨2028, 1, 23⟩, ⟨2029, 1, 23⟩] := by
  have hlast : testBond.get_last_coupon_date = ⟨2026, 1, 23⟩ := by
    rw [get_last_coupon_date_eval testBond 48 (by decide)]
    decide
  rw [cash_flows_eval testBond 40 (by rw [hlast]; decide), hlast,
    show cfDatesAux testBond.maturity_date (12 / (testBond.get_frequency_int : ℤ)) 40
        (firstCouponDate (⟨2026, 1, 23⟩ : Date) (12 / (testBond.get_frequency_int : ℤ))) =
      [⟨2027, 1, 23⟩, ⟨2028, 1, 23⟩, ⟨2029, 1, 23⟩] from by decide,
    List.map_map,
    show (Prod.fst ∘ fun d => ((d : Date), if d = testBond.maturity_date
        then testBond.coupon_val + testBond.face_value else testBond.coupon_val)) = id
      from rfl, List.map_id]

/-- Witness for C8 at the regression bond with coupon rates 5 < 10: the
regularity hypotheses hold there and the duration strictly decreases. -/
theorem C8_duration_strictly_decreasing_witness :
    0 < testBond.discount_base ∧ 2 ≤ testBond.cash_flows.length ∧
    ({testBond with coupon_rate := 10}).calculate.macaulay_duration <
      ({testBond with coupon_rate := 5}).calculate.macaulay_duration := by
  have hbase : 0 < testBond.discount_base := by
    unfold Bond.discount_base
    rw [show testBond.get_frequency_int = 1 from rfl, show testBond.yield_rate = 6 from rfl]
    norm_num
  have hface : 0 < testBond.face_value := by
    rw [show testBond.face_value = (100 : ℝ) from rfl]
    norm_num
  have hlen : 2 ≤ testBond.cash_flows.length := by
    have h := congrArg List.length testBond_flow_dates
    rw [List.length_map] at h
    rw [h]
    norm_num
  have hlastq : (testBond.cash_flows.map Prod.fst).getLast? = some testBond.maturity_date := by
    rw [testBond_flow_dates]
    rfl
  have hyf : ∀ d : Date, testBond.calculate_year_fraction testBond.settlement_date d =
      (calculate_days_30360 testBond.settlement_date d : ℝ) / 360 := by
    intro d
    unfold Bond.calculate_year_fraction
    rw [if_pos (show testBond.convention = "30/360" from rfl)]
  have ht : ∀ d ∈ (testBond.cash_flows.map Prod.fst).dropLast,
      testBond.calculate_year_fraction testBond.settlement_date d <
        testBond.calculate_year_fraction testBond.settlement_date testBond.maturity_date := by
    rw [testBond_flow_dates]
    intro d hd
    have hd2 : d ∈ [(⟨2027, 1, 23⟩ : Date), ⟨2028, 1, 23⟩] := hd
    rw [hyf d, hyf testBond.maturity_date,
      show calculate_days_30360 testBond.settlement_date testBond.maturity_date = 1076
        from by decide]
    simp only [List.mem_cons, List.not_mem_nil, or_false] at hd2
    rcases hd2 with rfl | rfl
    · rw [show calculate_days_30360 testBond.settlement_date ⟨2027, 1, 23⟩ = 356 from by decide]
      norm_num
    · rw [show calculate_days_30360 testBond.settlement_date ⟨2028, 1, 23⟩ = 716 from by decide]
      norm_num
  exact ⟨hbase, hlen, C8_duration_strictly_decreasing testBond 5 10 hbase hface
    (by norm_num) (by norm_num) hlen hlastq ht⟩

/-! ## Claim C9: a flat spot curve implies its own forward rate -/

/-- Claim C9: for every rate `r` with `1 + r/100 > 0` and times
`t2 > t1`, `forwardRate(r, t1, r, t2) = r`, following the source's
formula `((1+r/100)^t2 / (1+r/100)^t1)^(1/(t2−t1)) − 1`, scaled by 100. -/
theorem C9_flat_curve_forward_rate (r t1 t2 : ℝ) (hb : 0 < 1 + r / 100)
    (ht : t1 < t2) : calculate_forward_rate r t1 r t2 = r := by
  unfold calculate_forward_rate
  rw [if_neg (not_le.mpr ht)]
  have hΔ : t2 - t1 ≠ 0 := sub_ne_zero.mpr (ne_of_gt ht)
  show ((((1 + r / 100) ^ t2 / (1 + r / 100) ^ t1) ^ (1 / (t2 - t1))) - 1) * 100 = r
  rw [← Real.rpow_sub hb t2 t1, ← Real.rpow_mul (le_of_lt hb) (t2 - t1) (1 / (t2 - t1)),
    mul_one_div_cancel hΔ, Real.rpow_one]
  ring

/-- Witness for C9 at `r = 5`, `t1 = 1`, `t2 = 2`. -/
theorem C9_flat_curve_forward_rate_witness :
    (0 : ℝ) < 1 + 5 / 100 ∧ (1 : ℝ) < 2 ∧ calculate_forward_rate 5 1 5 2 = 5 :=
  ⟨by norm_num, by norm_num, C9_flat_curve_forward_rate 5 1 2 (by norm_num) (by norm_num)⟩

/-! ## Claim C7: prior coupons sum over solved years only -/

theorem pv_prior_foldl_general (spot : List (ℕ × ℝ)) (coupon : ℝ) :
    ∀ (l : List ℕ) (a : ℝ),
      l.foldl (fun acc t =>
        match spot.lookup t with
        | some z => acc + coupon / (1 + z / 100) ^ t
        | none => acc) a =
      a + (l.map (fun t =>
        match spot.lookup t with
        | some z => coupon / (1 + z / 100) ^ t
        | none => 0)).sum := by
  intro l
  induction l with
  | nil => intro a; simp
  | cons x xs ih =>
    intro a
    rw [List.foldl_cons, ih]
    cases hx : spot.lookup x <;> simp [hx] <;> ring

/-- The source's skip-accumulate loop equals the spec's sum with explicit
zeros for missing years. -/
theorem pv_prior_eq_spec (spot : List (ℕ × ℝ)) (coupon : ℝ) (year : ℕ) :
    pv_prior_coupons spot coupon year = pvPriorSpec spot coupon year := by
  unfold pv_prior_coupons pvPriorSpec
  rw [pv_prior_foldl_general]
  rw [zero_add]

/-- Claim C7: `pvPriorCoupons` is the sum over integer `t ∈ [1, Y−1]` of
`coupon/(1+spot[t]/100)^t` over already-solved entries, an absent year
contributing exactly zero; in particular, for the input
`{1: 5.0, 5: 6.0}` the bootstrap of year 5 discounts only the year-1
coupon (years 2–4 contribute zero), giving the recorded closed form. -/
theorem C7_prior_coupons_skip_missing_years :
    (∀ (spot_curve : List (ℕ × ℝ)) (coupon : ℝ) (year : ℕ),
      pv_prior_coupons spot_curve coupon year = pvPriorSpec spot_curve coupon year) ∧
    pv_prior_coupons [(1, (5 : ℝ))] 6 5 = 6 / (1 + 5 / 100) ^ 1 ∧
    bootstrap_spot_curve [(1, (5 : ℝ)), (5, 6)] =
      [(1, 5), (5, ((371 / 330 : ℝ) ^ ((1 : ℝ) / 5) - 1) * 100)] := by
  refine ⟨pv_prior_eq_spec, ?_, ?_⟩
  · rw [pv_prior_eq_spec]
    unfold pvPriorSpec
    rw [show (5 - 1 : ℕ) = 4 from rfl, show List.range' 1 4 = [1, 2, 3, 4] from by decide]
    simp only [List.map_cons, List.map_nil, List.sum_cons, List.sum_nil]
    rw [show ([(1, (5 : ℝ))].lookup 1) = some 5 from rfl,
      show ([(1, (5 : ℝ))].lookup 2) = none from rfl,
      show ([(1, (5 : ℝ))].lookup 3) = none from rfl,
      show ([(1, (5 : ℝ))].lookup 4) = none from rfl]
    norm_num
  · have hs1 : bootstrap_step [(1, (5 : ℝ)), (5, 6)] [] 1 = [(1, 5)] := by
      simp only [bootstrap_step, pv_prior_eq_spec]
      rw [show ([(1, (5 : ℝ)), (5, 6)].lookup 1) = some 5 from rfl]
      unfold pvPriorSpec
      rw [show (1 - 1 : ℕ) = 0 from rfl, show List.range' 1 0 = [] from rfl]
      simp only [List.map_nil, List.sum_nil, Option.getD_some]
      rw [if_neg (by norm_num)]
      rw [show ((1 : ℝ) / ((1 : ℕ) : ℝ)) = 1 by norm_num, Real.rpow_one]
      norm_num
    have hs2 : bootstrap_step [(1, (5 : ℝ)), (5, 6)] [(1, 5)] 5 =
        [(1, 5), (5, ((371 / 330 : ℝ) ^ ((1 : ℝ) / 5) - 1) * 100)] := by
      simp only [bootstrap_step, pv_prior_eq_spec]
      rw [show ([(1, (5 : ℝ)), (5, 6)].lookup 5) = some 6 from rfl]
      unfold pvPriorSpec
      rw [show (5 - 1 : ℕ) = 4 from rfl, show List.range' 1 4 = [1, 2, 3, 4] from by decide]
      simp only [List.map_cons, List.map_nil, List.sum_cons, List.sum_nil,
        Option.getD_some]
      rw [show ([(1, (5 : ℝ))].lookup 1) = some 5 from rfl,
        show ([(1, (5 : ℝ))].lookup 2) = none from rfl,
        show ([(1, (5 : ℝ))].lookup 3) = none from rfl,
        show ([(1, (5 : ℝ))].lookup 4) = none from rfl]
      rw [if_neg (by norm_num)]
      have hval : (1 : ℝ) / ((100 - (100 * (6 / 100) / (1 + 5 / 100) ^ 1 + (0 + (0 + (0 + 0))))) /
          (100 + 100 * (6 / 100))) = 371 / 330 := by norm_num
      rw [hval, show (((5 : ℕ) : ℝ)) = 5 by norm_num]
      rfl
    unfold bootstrap_spot_curve
    rw [show List.insertionSort (· ≤ ·) ([(1, (5 : ℝ)), (5, 6)].map Prod.fst) = [1, 5]
      from by decide]
    rw [List.foldl_cons, List.foldl_cons, List.foldl_nil, hs1, hs2]

/-! ## Claim C6: flat par yields and the bootstrapped curve -/

/-- Counterexample to C6 as stated: the flat input `{1: 5%, 3: 5%}` with a
gap at year 2 does not bootstrap to a flat curve — year 3 receives
`((441/400)^(1/3) − 1)·100 ≠ 5` because the missing year-2 coupon
contributes zero. -/
theorem C6_flat_gap_counterexample :
    (bootstrap_spot_curve [(1, (5 : ℝ)), (3, 5)]).lookup 3 ≠ some 5 := by
  have hs1 : bootstrap_step [(1, (5 : ℝ)), (3, 5)] [] 1 = [(1, 5)] := by
    simp only [bootstrap_step, pv_prior_eq_spec]
    rw [show ([(1, (5 : ℝ)), (3, 5)].lookup 1) = some 5 from rfl]
    unfold pvPriorSpec
    rw [show (1 - 1 : ℕ) = 0 from rfl, show List.range' 1 0 = [] from rfl]
    simp only [List.map_nil, List.sum_nil, Option.getD_some]
    rw [if_neg (by norm_num)]
    rw [show ((1 : ℝ) / ((1 : ℕ) : ℝ)) = 1 by norm_num, Real.rpow_one]
    norm_num
  have hs2 : bootstrap_step [(1, (5 : ℝ)), (3, 5)] [(1, 5)] 3 =
      [(1, 5), (3, ((441 / 400 : ℝ) ^ ((1 : ℝ) / 3) - 1) * 100)] := by
    simp only [bootstrap_step, pv_prior_eq_spec]
    rw [show ([(1, (5 : ℝ)), (3, 5)].lookup 3) = some 5 from rfl]
    unfold pvPriorSpec
    rw [show (3 - 1 : ℕ) = 2 from rfl, show List.range' 1 2 = [1, 2] from by decide]
    simp only [List.map_cons, List.map_nil, List.sum_cons, List.sum_nil,
      Option.getD_some]
    rw [show ([(1, (5 : ℝ))].lookup 1) = some 5 from rfl,
      show ([(1, (5 : ℝ))].lookup 2) = none from rfl]
    rw [if_neg (by norm_num)]
    have hval : (1 : ℝ) / ((100 - (100 * (5 / 100) / (1 + 5 / 100) ^ 1 + (0 + 0))) /
        (100 + 100 * (5 / 100))) = 441 / 400 := by norm_num
    rw [hval, show (((3 : ℕ) : ℝ)) = 3 by norm_num]
    rfl
  have hconc : bootstrap_spot_curve [(1, (5 : ℝ)), (3, 5)] =
      [(1, 5), (3, ((441 / 400 : ℝ) ^ ((1 : ℝ) / 3) - 1) * 100)] := by
    unfold bootstrap_spot_curve
    rw [show List.insertionSort (· ≤ ·) ([(1, (5 : ℝ)), (3, 5)].map Prod.fst) = [1, 3]
      from by decide]
    rw [List.foldl_cons, List.foldl_cons, List.foldl_nil, hs1, hs2]
  rw [hconc,
    show ([(1, (5 : ℝ)), (3, ((441 / 400 : ℝ) ^ ((1 : ℝ) / 3) - 1) * 100)].lookup 3) =
      some (((441 / 400 : ℝ) ^ ((1 : ℝ) / 3) - 1) * 100) from rfl]
  intro hx
  have h1 : ((441 / 400 : ℝ) ^ ((1 : ℝ) / 3) - 1) * 100 = 5 := Option.some.inj hx
  have h2 : (441 / 400 : ℝ) ^ ((1 : ℝ) / 3) = 21 / 20 := by linarith
  have h3 : (((441 / 400 : ℝ) ^ ((1 : ℝ) / 3)) ^ (3 : ℕ)) = ((21 / 20 : ℝ)) ^ (3 : ℕ) := by
    rw [h2]
  rw [← Real.rpow_natCast ((441 / 400 : ℝ) ^ ((1 : ℝ) / 3)) 3,
    ← Real.rpow_mul (by norm_num : (0 : ℝ) ≤ 441 / 400),
    show ((1 : ℝ) / 3 * ((3 : ℕ) : ℝ)) = 1 by push_cast; ring, Real.rpow_one] at h3
  norm_num at h3

theorem flat_keys_sorted (N : ℕ) (p : ℝ) :
    List.insertionSort (· ≤ ·) ((flatParYields N p).map Prod.fst) = List.range' 1 N := by
  have h1 : (flatParYields N p).map Prod.fst = List.range' 1 N := by
    unfold flatParYields
    rw [List.map_map]
    rw [show (Prod.fst ∘ fun y : ℕ => ((y, p) : ℕ × ℝ)) = id from rfl, List.map_id]
  rw [h1]
  exact List.Sorted.insertionSort_eq (List.pairwise_le_range' 1 N)

theorem lookup_flat_range (p : ℝ) : ∀ (n s t : ℕ), s ≤ t → t < s + n →
    (((List.range' s n).map (fun y => (y, p))).lookup t) = some p := by
  intro n
  induction n with
  | zero => intro s t h1 h2; omega
  | succ n ih =>
    intro s t h1 h2
    rw [List.range'_succ, List.map_cons, List.lookup_cons]
    by_cases ht : t = s
    · subst ht; simp
    · have hbeq : (t == s) = false := beq_eq_false_iff_ne.mpr ht
      rw [hbeq]
      exact ih (s + 1) t (by omega) (by omega)

theorem lookup_flatParYields (p : ℝ) (N t : ℕ) (h1 : 1 ≤ t) (h2 : t ≤ N) :
    (flatParYields N p).lookup t = some p := by
  unfold flatParYields
  exact lookup_flat_range p N 1 t h1 (by omega)

theorem flat_geo_sum (b : ℝ) (hb : b ≠ 0) : ∀ k : ℕ,
    ((List.range' 1 k).map (fun t => (100 * (b - 1)) / b ^ t)).sum = 100 - 100 / b ^ k := by
  intro k
  induction k with
  | zero => simp
  | succ k ih =>
    rw [List.range'_concat, List.map_append, List.sum_append, ih]
    simp only [List.map_cons, List.map_nil, List.sum_cons, List.sum_nil]
    have hbk : b ^ k ≠ 0 := pow_ne_zero _ hb
    have hbk1 : b ^ (k + 1) ≠ 0 := pow_ne_zero _ hb
    rw [show (1 + 1 * k) = k + 1 by omega]
    field_simp
    ring

theorem flat_pv_prior (p : ℝ) (hb : 0 < 1 + p / 100) (k : ℕ) :
    pv_prior_coupons (flatParYields k p) (100 * (p / 100)) (k + 1) =
      100 - 100 / (1 + p / 100) ^ k := by
  rw [pv_prior_eq_spec]
  unfold pvPriorSpec
  rw [show (k + 1 - 1 : ℕ) = k from rfl]
  have hmap : (List.range' 1 k).map (fun t =>
      match (flatParYields k p).lookup t with
      | some z => (100 * (p / 100)) / (1 + z / 100) ^ t
      | none => 0) =
      (List.range' 1 k).map (fun t => (100 * ((1 + p / 100) - 1)) / (1 + p / 100) ^ t) := by
    apply List.map_congr_left
    intro t ht
    rw [List.mem_range'_1] at ht
    rw [lookup_flatParYields p k t ht.1 (by omega)]
    show (100 * (p / 100)) / (1 + p / 100) ^ t = _
    ring_nf
  rw [hmap, flat_geo_sum (1 + p / 100) (ne_of_gt hb)]

theorem flat_bootstrap_invariant (N : ℕ) (p : ℝ) (hb : 0 < 1 + p / 100) : ∀ k : ℕ,
    k ≤ N →
    (List.range' 1 k).foldl (bootstrap_step (flatParYields N p)) [] = flatParYields k p := by
  have hb0 : (1 + p / 100) ≠ 0 := ne_of_gt hb
  intro k
  induction k with
  | zero => intro _; rfl
  | succ k ih =>
    intro hk
    rw [List.range'_concat, List.foldl_append, ih (by omega), List.foldl_cons,
      List.foldl_nil, show (1 + 1 * k) = k + 1 by omega]
    have hbk : (0 : ℝ) < (1 + p / 100) ^ k := pow_pos hb k
    simp only [bootstrap_step]
    rw [lookup_flatParYields p N (k + 1) (by omega) (by omega), Option.getD_some,
      flat_pv_prior p hb k,
      show (100 : ℝ) - (100 - 100 / (1 + p / 100) ^ k) = 100 / (1 + p / 100) ^ k by ring,
      if_neg (not_le.mpr (by positivity)),
      show (1 : ℝ) / ((100 / (1 + p / 100) ^ k) / (100 + 100 * (p / 100))) =
        (1 + p / 100) ^ (k + 1) by field_simp; ring,
      ← Real.rpow_natCast (1 + p / 100) (k + 1), ← Real.rpow_mul (le_of_lt hb),
      show ((((k + 1 : ℕ)) : ℝ) * ((1 : ℝ) / (((k + 1 : ℕ)) : ℝ))) = 1 by
        rw [mul_one_div, div_self (by positivity)],
      Real.rpow_one,
      show ((1 + p / 100) - 1) * 100 = p by ring]
    unfold flatParYields
    rw [List.range'_concat, List.map_append, show (1 + 1 * k) = k + 1 by omega]
    rfl

/-- Amended claim C6: for a flat par-yield input on the contiguous
maturities `1..N`, all equal to `p%` with `1 + p/100 > 0`,
`bootstrapSpotCurve` returns `p%` for every year.  (The contiguity and
the bound on `p` are forced: with a gap the missing years contribute
zero instead of their self-consistent discounted coupon, see the
counterexample, and at `p ≤ −100` the remaining-value clamp fires.) -/
theorem C6_flat_contiguous_self_consistent (N : ℕ) (p : ℝ)
    (hb : 0 < 1 + p / 100) :
    bootstrap_spot_curve (flatParYields N p) = flatParYields N p := by
  unfold bootstrap_spot_curve
  rw [flat_keys_sorted]
  exact flat_bootstrap_invariant N p hb N (le_refl N)

/-- Witness for the amended C6 at `N = 3`, `p = 5`. -/
theorem C6_flat_contiguous_self_consistent_witness :
    (0 : ℝ) < 1 + 5 / 100 ∧
    bootstrap_spot_curve (flatParYields 3 5) = flatParYields 3 5 :=
  ⟨by norm_num, C6_flat_contiguous_self_consistent 3 5 (by norm_num)⟩

/-! ## Claim C10: the spot curve has exactly the input's year keys -/

theorem bootstrap_foldl_keys (py : List (ℕ × ℝ)) (years : List ℕ) :
    ∀ init : List (ℕ × ℝ),
      ((years.foldl (bootstrap_step py) init).map Prod.fst) =
        init.map Prod.fst ++ years := by
  induction years with
  | nil => intro init; simp
  | cons y ys ih =>
    intro init
    rw [List.foldl_cons, ih]
    have hstep : (bootstrap_step py init y).map Prod.fst = init.map Prod.fst ++ [y] := by
      simp only [bootstrap_step]
      split <;> simp
    rw [hstep]
    simp

/-- Claim C10: for every par-yield table, the spot curve returned by
`bootstrap_spot_curve` carries exactly the input's year keys — its key
list is the ascending sort of the input keys, hence a permutation of
them (each input year receives exactly one entry, no other keys appear)
— and the empty input yields the empty output. -/
theorem C10_spot_curve_key_set :
    (∀ l : List (ℕ × ℝ),
      (bootstrap_spot_curve l).map Prod.fst =
        List.insertionSort (· ≤ ·) (l.map Prod.fst) ∧
      ((bootstrap_spot_curve l).map Prod.fst).Perm (l.map Prod.fst)) ∧
    bootstrap_spot_curve ([] : List (ℕ × ℝ)) = [] := by
  constructor
  · intro l
    have h1 : (bootstrap_spot_curve l).map Prod.fst =
        List.insertionSort (· ≤ ·) (l.map Prod.fst) := by
      unfold bootstrap_spot_curve
      rw [bootstrap_foldl_keys]
      simp
    exact ⟨h1, h1 ▸ List.perm_insertionSort _ _⟩
  · rfl

end
